import Mathlib

/- Batteries marks the `Rat` field operations `@[irreducible]`, which blocks
definitional evaluation of concrete game traces over `ℚ`.  Restore the
default reducibility (this only affects elaboration; kernel checking is
unchanged). -/
set_option allowUnsafeReducibility true
attribute [semireducible] Rat.mul Rat.add Rat.sub Rat.div Rat.neg Rat.inv

set_option linter.unusedSectionVars false

/-!
# Verification of the bqgame authoritative game server (`src/server.js`)

Shallow embedding of the server-side simulation: rooms, player sessions,
projectiles, the HTTP action handlers (join / state poll / fire / restart)
and the fixed-rate tick loop (liveness sweep, per-tick session rebuild,
projectile physics and collision resolution).

Modelling conventions:
* JS `number` coordinates and velocities are modelled over an arbitrary
  `LinearOrderedField K` (instantiated at `ℚ` for executable witnesses and at
  `ℝ` for the statements involving `Real.cos` / `Real.sin` / `Real.pi`).
* `Math.cos`, `Math.sin` and `Math.PI` are passed in as parameters
  `cosF sinF : K → K` and `piK : K`, instantiated with `Real.cos`,
  `Real.sin`, `Real.pi` at `K = ℝ`.
* Timestamps (`Date.now()`) are integers in milliseconds.
* JS insertion-ordered objects/Maps (`room.players`, `rooms`) are modelled as
  lists; `obj[k] = v` is replace-or-append (`playersSet` / `roomsSet`),
  `delete obj[k]` / iteration-order accesses are filters / ordered traversals.
* `crypto.randomUUID()` and the generated room ids are environment-supplied
  inputs (`playerId : Nat`, `freshId : Int × Nat` for
  `room-${Date.now()}-${rand}`).
* `Number(x) || 0` on untrusted input is modelled as `Option K` with
  `none ↦ 0` (absent / non-numeric input).
-/

namespace BQGame

/-- Constants from the top of `server.js` (millisecond / count constants). -/
def PROJECTILE_LIFETIME_MS : Int := 6000
def HIT_COOLDOWN_MS : Int := 900
def FIRE_COOLDOWN_MS : Int := 1500
def START_HP : Int := 5

section Model

variable (K : Type) [LinearOrderedField K]

/-- `GRAVITY = 900` -/
def GRAVITY : K := 900
/-- `PLAYER_RADIUS = 28` -/
def PLAYER_RADIUS : K := 28
/-- `PROJECTILE_RADIUS = 8` -/
def PROJECTILE_RADIUS : K := 8
/-- `ARENA_WIDTH = 1000` -/
def ARENA_WIDTH : K := 1000
/-- `ARENA_HEIGHT = 560` -/
def ARENA_HEIGHT : K := 560

/-- A player session object (`room.players[id]`). -/
structure Player where
  id : Nat
  slot : Nat
  hp : Int
  cooldownUntil : Int
  x : K
  y : K
  color : String
  facing : Int
  lastSeenAt : Int
deriving DecidableEq

/-- A projectile object (`room.projectiles[i]`); its `id` field
`` `${playerId}-${now}` `` is modelled as the pair `(ownerId, bornAt)`. -/
structure Projectile where
  id : Nat × Int
  ownerId : Nat
  x : K
  y : K
  vx : K
  vy : K
  bornAt : Int
deriving DecidableEq

/-- A room object. -/
structure Room where
  id : Int × Nat
  players : List (Player K)
  projectiles : List (Projectile K)
  lastHitAt : Int
  started : Bool
  winner : Option Nat
deriving DecidableEq

end Model

variable {K : Type} [LinearOrderedField K]

/-- `makeRoom(id)`. -/
def makeRoom (id : Int × Nat) : Room K :=
  { id := id, players := [], projectiles := [], lastHitAt := 0,
    started := false, winner := none }

/-- `playerStartState(slot)`; `now` models the `Date.now()` call in the
`lastSeenAt` field, `id` the key the object is stored under. -/
def playerStartState (slot : Nat) (now : Int) (id : Nat) : Player K :=
  { id := id
    slot := slot
    hp := START_HP
    cooldownUntil := 0
    x := if slot = 0 then 120 else ARENA_WIDTH K - 120
    y := ARENA_HEIGHT K - 80
    color := if slot = 0 then "#4c9dff" else "#ff5b8a"
    facing := if slot = 0 then 1 else -1
    lastSeenAt := now }

/-- `clamp(v, min, max) = Math.max(min, Math.min(max, v))`. -/
def clamp (v lo hi : K) : K := max lo (min hi v)

/-- JS object store `room.players[id] = p`: replace the entry with that key
if present, else append. -/
def playersSet (ps : List (Player K)) (p : Player K) : List (Player K) :=
  if ps.any (fun q => q.id = p.id) then
    ps.map (fun q => if q.id = p.id then p else q)
  else ps ++ [p]

/-- `rooms.set(id, room)`: replace-or-append by room id. -/
def roomsSet (rs : List (Room K)) (r : Room K) : List (Room K) :=
  if rs.any (fun q => q.id = r.id) then
    rs.map (fun q => if q.id = r.id then r else q)
  else rs ++ [r]

/-- `findOrCreateRoom()`: first room with fewer than two players and no
winner, else a fresh room (with environment-generated id) added to the
registry.  Returns the chosen room and the updated registry. -/
def findOrCreateRoom (rs : List (Room K)) (freshId : Int × Nat) :
    Room K × List (Room K) :=
  match rs.find? (fun r => r.players.length < 2 ∧ r.winner = none) with
  | some r => (r, rs)
  | none =>
    let r : Room K := makeRoom freshId
    (r, roomsSet rs r)

/-- `resetRoom(room)`: clear projectiles, `lastHitAt`, `winner`, and rebuild
every player from `playerStartState(slot)` keeping its key (`id`) and slot.
Note the spread `{ id, ...playerStartState(slot) }` takes the *fresh*
`lastSeenAt: Date.now()` from `playerStartState`. -/
def resetRoom (now : Int) (r : Room K) : Room K :=
  { r with
    projectiles := []
    lastHitAt := 0
    winner := none
    players := r.players.map (fun p => playerStartState p.slot now p.id) }

/-- The body of the `/api/join` handler, acting on the chosen room:
slot is the occupant count before insertion, then
`started = (count == 2)` after insertion. -/
def roomJoin (now : Int) (playerId : Nat) (r : Room K) : Room K × Nat :=
  let slot := r.players.length
  let players := playersSet r.players (playerStartState slot now playerId)
  ({ r with players := players, started := players.length = 2 }, slot)

/-- `/api/join`: `findOrCreateRoom()` then insert the new session. -/
def apiJoin (now : Int) (freshId : Int × Nat) (playerId : Nat)
    (rs : List (Room K)) : List (Room K) × (Int × Nat) × Nat :=
  let fr := findOrCreateRoom rs freshId
  (roomsSet fr.2 (roomJoin now playerId fr.1).1,
   (fr.1.id, (roomJoin now playerId fr.1).2))

/-- `/api/state`: refresh the player's `lastSeenAt` (when room and player
exist; otherwise 404 leaves state unchanged). -/
def apiPoll (now : Int) (roomId : Int × Nat) (playerId : Nat)
    (rs : List (Room K)) : List (Room K) :=
  match rs.find? (fun r => r.id = roomId) with
  | none => rs
  | some r =>
    if r.players.any (fun p => p.id = playerId) then
      roomsSet rs { r with
        players := r.players.map (fun p =>
          if p.id = playerId then { p with lastSeenAt := now } else p) }
    else rs

/-- Response of the `/api/fire` handler. -/
inductive FireResp
  | badRequest
  | coolingDown (cooldownUntil : Int)
  | fired
deriving DecidableEq, Repr

/-- Lines 171–183 of `server.js`: the projectile constructed by an accepted
fire action.  `cosF`, `sinF`, `piK` model `Math.cos`, `Math.sin`, `Math.PI`;
`power`/`angle` are the coerced client inputs (`none` = non-numeric ⇒ 0). -/
def fireProjectile (cosF sinF : K → K) (piK : K) (now : Int)
    (player : Player K) (power angle : Option K) : Projectile K :=
  let clampedPower := clamp (power.getD 0) 150 900
  let clampedAngle := clamp (angle.getD 0) (-piK + 15 / 100) (-(15 / 100))
  let baseAngle := if player.facing = 1 then clampedAngle else piK - clampedAngle
  { id := (player.id, now)
    ownerId := player.id
    x := player.x
    y := player.y - PLAYER_RADIUS K
    vx := cosF baseAngle * clampedPower
    vy := sinF baseAngle * clampedPower
    bornAt := now }

/-- The `/api/fire` handler acting on a found room: reject when the player is
unknown or a winner is set; report cooldown when `cooldownUntil > now`; else
push the new projectile and set `cooldownUntil = now + FIRE_COOLDOWN_MS`. -/
def roomFire (cosF sinF : K → K) (piK : K) (now : Int) (playerId : Nat)
    (power angle : Option K) (r : Room K) : Room K × FireResp :=
  match r.players.find? (fun p => p.id = playerId) with
  | none => (r, .badRequest)
  | some player =>
    if r.winner.isSome then (r, .badRequest)
    else if player.cooldownUntil > now then (r, .coolingDown player.cooldownUntil)
    else
      let proj := fireProjectile cosF sinF piK now player power angle
      ({ r with
          projectiles := r.projectiles ++ [proj]
          players := r.players.map (fun p =>
            if p.id = playerId then { p with cooldownUntil := now + FIRE_COOLDOWN_MS }
            else p) },
        .fired)

/-- `/api/fire`: room lookup then `roomFire`. -/
def apiFire (cosF sinF : K → K) (piK : K) (now : Int) (roomId : Int × Nat)
    (playerId : Nat) (power angle : Option K) (rs : List (Room K)) :
    List (Room K) × FireResp :=
  match rs.find? (fun r => r.id = roomId) with
  | none => (rs, .badRequest)
  | some r =>
    (roomsSet rs (roomFire cosF sinF piK now playerId power angle r).1,
     (roomFire cosF sinF piK now playerId power angle r).2)

/-- The `/api/restart` handler on a found room: `resetRoom` then
`started = (count == 2)`. -/
def roomRestart (now : Int) (r : Room K) : Room K :=
  let r' := resetRoom now r
  { r' with started := r'.players.length = 2 }

/-- `/api/restart`: room lookup (404 leaves state unchanged) then restart. -/
def apiRestart (now : Int) (roomId : Int × Nat) (rs : List (Room K)) :
    List (Room K) × Bool :=
  match rs.find? (fun r => r.id = roomId) with
  | none => (rs, false)
  | some r => (roomsSet rs (roomRestart now r), true)

/-! ## The tick loop (`setInterval` body, lines 208–257) -/

/-- Liveness sweep: `delete room.players[pid]` for every session with
`now - lastSeenAt > 30000`. -/
def sweepPlayers (now : Int) (ps : List (Player K)) : List (Player K) :=
  ps.filter (fun p => !(now - p.lastSeenAt > 30000))

/-- Per-tick session rebuild (lines 224–227): every surviving session is
rewritten as `{ id, ...playerStartState(index), hp, lastSeenAt }`, i.e. all
fields are reset from its key-order index except `hp` and `lastSeenAt`. -/
def rebuildPlayers (now : Int) : Nat → List (Player K) → List (Player K)
  | _, [] => []
  | i, p :: ps =>
    { playerStartState i now p.id with hp := p.hp, lastSeenAt := p.lastSeenAt }
      :: rebuildPlayers now (i + 1) ps

/-- One semi-implicit Euler step with `dt = 1/60`:
`vy += GRAVITY*dt; x += vx*dt; y += vy*dt` (the position update uses the
already-updated `vy`). -/
def integrate (proj : Projectile K) : Projectile K :=
  let dt : K := 1 / 60
  let vy := proj.vy + GRAVITY K * dt
  { proj with vy := vy, x := proj.x + proj.vx * dt, y := proj.y + vy * dt }

/-- The collision loop (lines 241–253): scan targets in key order, skipping
the owner and dead sessions; return the first target within
`PLAYER_RADIUS + PROJECTILE_RADIUS` of the vertically offset hurtbox center
while the room-wide hit cooldown gate `now - lastHitAt > HIT_COOLDOWN_MS`
is open. -/
def hitScan (now lastHitAt : Int) (ownerId : Nat) (px py : K) :
    List (Player K) → Option (Player K)
  | [] => none
  | t :: ts =>
    if t.id = ownerId ∨ t.hp ≤ 0 then hitScan now lastHitAt ownerId px py ts
    else
      -- dx = target.x - proj.x, dy = target.y - PLAYER_RADIUS/2 - proj.y,
      -- radius = PLAYER_RADIUS + PROJECTILE_RADIUS
      if (t.x - px) * (t.x - px) +
          (t.y - PLAYER_RADIUS K / 2 - py) * (t.y - PLAYER_RADIUS K / 2 - py) ≤
          (PLAYER_RADIUS K + PROJECTILE_RADIUS K) *
            (PLAYER_RADIUS K + PROJECTILE_RADIUS K) ∧
          now - lastHitAt > HIT_COOLDOWN_MS
      then some t
      else hitScan now lastHitAt ownerId px py ts

/-- Mutable room state threaded through the `projectiles.filter` callback. -/
structure TickCtx (K : Type) [LinearOrderedField K] where
  players : List (Player K)
  lastHitAt : Int
  winner : Option Nat
  kept : List (Projectile K)

/-- One `projectiles.filter` callback invocation (lines 232–255): integrate,
then (short-circuit, in order) expire on age, expire out of the expanded
bounding box, or resolve a hit; otherwise keep the projectile. -/
def processProj (now : Int) (c : TickCtx K) (proj : Projectile K) : TickCtx K :=
  let p := integrate proj
  if now - p.bornAt > PROJECTILE_LIFETIME_MS then c
  else if p.x < -100 ∨ p.x > ARENA_WIDTH K + 100 ∨ p.y > ARENA_HEIGHT K + 100 then c
  else
    match hitScan now c.lastHitAt p.ownerId p.x p.y c.players with
    | some t =>
      { players := c.players.map (fun q =>
          if q.id = t.id then { q with hp := q.hp - 1 } else q)
        lastHitAt := now
        winner := if t.hp - 1 ≤ 0 then some p.ownerId else c.winner
        kept := c.kept }
    | none => { c with kept := c.kept ++ [p] }

/-- One tick of a single room: sweep, delete when empty (`none`), rebuild
sessions, recompute `started`, and — only when `started` and no `winner` —
run the projectile filter. -/
def tickRoom (now : Int) (r : Room K) : Option (Room K) :=
  let swept := sweepPlayers now r.players
  if swept.length = 0 then none
  else
    let ps := rebuildPlayers now 0 swept
    let started : Bool := ps.length = 2
    if ¬started ∨ r.winner.isSome then
      some { r with players := ps, started := started }
    else
      let c := r.projectiles.foldl (processProj now)
        { players := ps, lastHitAt := r.lastHitAt, winner := r.winner, kept := [] }
      some { r with
        players := c.players
        projectiles := c.kept
        lastHitAt := c.lastHitAt
        started := started
        winner := c.winner }

/-- One tick over the whole registry (rooms left `none` are deleted). -/
def tickRegistry (now : Int) (rs : List (Room K)) : List (Room K) :=
  rs.filterMap (tickRoom now)

/-! ## Client/scheduler interleavings -/

/-- One externally triggered event: an HTTP action or a scheduler tick.
Environment-chosen data (timestamps, generated ids, request bodies) are
carried in the constructor. -/
inductive Op (K : Type) [LinearOrderedField K]
  | join (now : Int) (freshId : Int × Nat) (playerId : Nat)
  | poll (now : Int) (roomId : Int × Nat) (playerId : Nat)
  | fire (now : Int) (roomId : Int × Nat) (playerId : Nat) (power angle : Option K)
  | restart (now : Int) (roomId : Int × Nat)
  | tick (now : Int)

/-- Apply one event to the registry; the second component is the response of
a fire action (`none` for the other events). -/
def stepOp (cosF sinF : K → K) (piK : K) (rs : List (Room K)) :
    Op K → List (Room K) × Option FireResp
  | .join now freshId playerId => ((apiJoin now freshId playerId rs).1, none)
  | .poll now roomId playerId => (apiPoll now roomId playerId rs, none)
  | .fire now roomId playerId power angle =>
    ((apiFire cosF sinF piK now roomId playerId power angle rs).1,
     some (apiFire cosF sinF piK now roomId playerId power angle rs).2)
  | .restart now roomId => ((apiRestart now roomId rs).1, none)
  | .tick now => (tickRegistry now rs, none)

/-- Run a list of events, collecting the fire responses in order. -/
def runOps (cosF sinF : K → K) (piK : K) (rs : List (Room K)) :
    List (Op K) → List (Room K) × List FireResp
  | [] => (rs, [])
  | op :: ops =>
    ((runOps cosF sinF piK (stepOp cosF sinF piK rs op).1 ops).1,
     (stepOp cosF sinF piK rs op).2.toList ++
       (runOps cosF sinF piK (stepOp cosF sinF piK rs op).1 ops).2)

/-- Registry states reachable from the empty registry (process start) by any
interleaving of client actions and scheduler ticks. -/
inductive Reachable (cosF sinF : K → K) (piK : K) : List (Room K) → Prop
  | init : Reachable cosF sinF piK []
  | step {rs : List (Room K)} (h : Reachable cosF sinF piK rs) (op : Op K) :
    Reachable cosF sinF piK (stepOp cosF sinF piK rs op).1

/-! ## Derived notions used in the statements -/

/-- Some session present on both sides of a transition lost hit points. -/
def hpDrop (r r' : Room K) : Prop :=
  ∃ p ∈ r.players, ∃ p' ∈ r'.players, p'.id = p.id ∧ p'.hp < p.hp

instance hpDropDecidable (r r' : Room K) : Decidable (hpDrop r r') :=
  inferInstanceAs
    (Decidable (∃ p ∈ r.players, ∃ p' ∈ r'.players, p'.id = p.id ∧ p'.hp < p.hp))

/-- The trajectory of a single room under a sequence of ticks at times
`t 0, t 1, …` (`none` once the room has been deleted). -/
def tickStates (t : Nat → Int) (r : Room K) : Nat → Option (Room K)
  | 0 => some r
  | k + 1 => (tickStates t r k).bind (tickRoom (t k))

/-- The tick at index `k` performed an hp decrement. -/
def dropsAt (t : Nat → Int) (r : Room K) (k : Nat) : Prop :=
  ∃ rk rk', tickStates t r k = some rk ∧ tickStates t r (k + 1) = some rk' ∧
    hpDrop rk rk'

/-! ## Concrete executions (used for counterexamples and witnesses)

`cosQ`/`sinQ` are rational stand-ins for `Math.cos`/`Math.sin`: constant
functions with `cosQ v ∈ [-1, 1]`, `sinQ v ∈ [-1, 1]` and
`cosQ v ^ 2 + sinQ v ^ 2 ≤ 1`, so every concrete projectile below is one the
real trigonometric functions could also produce (its speed is below the
clamped power).  `piQ` is a rational stand-in for `Math.PI`. -/

/-- Stand-in for `Math.cos`: constant `38/45`. -/
def cosQ : ℚ → ℚ := fun _ => 38 / 45
/-- Stand-in for `Math.sin`: constant `-887/1800`. -/
def sinQ : ℚ → ℚ := fun _ => -887 / 1800
/-- Stand-in for `Math.PI`. -/
def piQ : ℚ := 355 / 113

/-- `n` scheduler ticks, 16 ms apart, starting at time `t0`. -/
def ticksFrom (t0 : Int) (n : Nat) : List (Op ℚ)  :=
  (List.range n).map (fun k => Op.tick (t0 + 16 * k))

/-- Player 100 fires at time `t0`, followed by 58 ticks; with `cosQ`/`sinQ`
as above the projectile crosses the arena and reaches player 101's hurtbox
on the 58th tick after the shot. -/
def fireRound (t0 : Int) : List (Op ℚ) :=
  Op.fire t0 (0, 0) 100 (some 900) (some (-1)) :: ticksFrom (t0 + 16) 58

/-- Events refuting C1: player 100 fires at t=1000 (accepted), one scheduler
tick runs at t=1016, and a second fire at t=1020 — 20 ms after the first —
is accepted again, because the per-tick session rebuild reset
`cooldownUntil` to 0. -/
def c1ops : List (Op ℚ) :=
  [ Op.join 0 (0, 0) 100
  , Op.join 1 (0, 0) 101
  , Op.fire 1000 (0, 0) 100 (some 900) (some (-1))
  , Op.tick 1016
  , Op.fire 1020 (0, 0) 100 (some 900) (some (-1)) ]

/-- The same events without the intervening tick: the second fire is then
rejected with the pending deadline 1000 + 1500. -/
def c1opsNoTick : List (Op ℚ) :=
  [ Op.join 0 (0, 0) 100
  , Op.join 1 (0, 0) 101
  , Op.fire 1000 (0, 0) 100 (some 900) (some (-1))
  , Op.fire 1020 (0, 0) 100 (some 900) (some (-1)) ]

/-- Events reaching a room whose `winner` is set while no session with
`hp ≤ 0` is present any more: two players join, player 100 lands five hits
on player 101 (hits are > 900 ms apart), so `winner := some 100`; player 101
then times out (no poll for 30 s) and the sweep removes it while `winner`
stays set. -/
def c3ops : List (Op ℚ) :=
  [ Op.join 0 (0, 0) 100, Op.join 1 (0, 0) 101 ]
  ++ fireRound 1000 ++ fireRound 1929 ++ fireRound 2858
  ++ fireRound 3787 ++ fireRound 4716
  ++ [ Op.poll 39000 (0, 0) 100, Op.tick 40000 ]

/-- The registry after running `c3ops` from process start. -/
def c3final : List (Room ℚ) := (runOps cosQ sinQ piQ [] c3ops).1

/-- A two-player room with two stationary projectiles already touching
player 101's hurtbox, used to exercise the hit-cooldown statements: the
first tick applies one hit and keeps the second projectile (gate closed);
a second tick 901 ms later applies the second hit. -/
def c2room : Room ℚ :=
  { id := (0, 0)
    players :=
      [ { id := 100, slot := 0, hp := 5, cooldownUntil := 0, x := 120, y := 480,
          color := "#4c9dff", facing := 1, lastSeenAt := 1000 }
      , { id := 101, slot := 1, hp := 5, cooldownUntil := 0, x := 880, y := 480,
          color := "#ff5b8a", facing := -1, lastSeenAt := 1000 } ]
    projectiles :=
      [ { id := (100, 999), ownerId := 100, x := 880, y := 466, vx := 0, vy := -15,
          bornAt := 999 }
      , { id := (100, 1000), ownerId := 100, x := 880, y := 466, vx := 0, vy := -15,
          bornAt := 1000 } ]
    lastHitAt := 0
    started := true
    winner := none }

/-- Tick times for `c2room`: `t k = 1000 + 901 k`. -/
def c2times : Nat → Int := fun k => 1000 + 901 * k

/-- The room after the first tick of `c2room` (one hit applied, the second
projectile kept). -/
def c2tick1 : Room ℚ := (tickRoom (c2times 0) c2room).getD (makeRoom (0, 0))

/-- The room after the second tick (901 ms later: the gate has reopened and
the kept projectile scores the second hit). -/
def c2tick2 : Room ℚ := (tickRoom (c2times 1) c2tick1).getD (makeRoom (0, 0))

/-- A one-player room over `ℝ`, used to exercise the fire handler with the
real `Math.cos`/`Math.sin`/`Math.PI`. -/
def c4room : Room ℝ :=
  { id := (0, 0)
    players := [⟨100, 0, 5, 0, 120, 480, "#4c9dff", 1, 0⟩]
    projectiles := []
    lastHitAt := 0
    started := false
    winner := none }

/-- A one-player room whose session was last seen at t = 100, used to
exercise the restart handler. -/
def c7room : Room ℚ :=
  { id := (7, 0)
    players := [⟨100, 0, 3, 2500, 120, 480, "#4c9dff", 1, 100⟩]
    projectiles := []
    lastHitAt := 400
    started := false
    winner := none }

/-- A two-player room in which player 100 is stale (last seen t = 1000) and
player 101 (slot 1, right spawn) is fresh (last seen t = 50000) at the tick
time t = 40000. -/
def c9room : Room ℚ :=
  { id := (9, 0)
    players :=
      [ ⟨100, 0, 5, 0, 120, 480, "#4c9dff", 1, 1000⟩
      , ⟨101, 1, 4, 7000, 880, 480, "#ff5b8a", -1, 50000⟩ ]
    projectiles := []
    lastHitAt := 0
    started := true
    winner := none }

/-- `c2room` with a winner already set (and a pending cooldown), used to
exercise the per-tick rebuild in a finished room. -/
def c10room : Room ℚ :=
  { c2room with winner := some 100
                players := c2room.players.map (fun p => { p with cooldownUntil := 9999 }) }

/-- Well-formedness of a room, maintained by every handler and by the tick:
distinct session ids, `started` iff exactly two sessions, and any dead
session implies a winner is recorded. -/
def RoomWf (r : Room K) : Prop :=
  (r.players.map Player.id).Nodup ∧
  (r.started = true ↔ r.players.length = 2) ∧
  (∀ p ∈ r.players, p.hp ≤ 0 → r.winner ≠ none)

/-- The registry right after a single join from process start. -/
def c3joinreg : List (Room ℚ) :=
  (runOps cosQ sinQ piQ [] [Op.join 0 (0, 0) 100]).1

/-- The single room of `c3joinreg`. -/
def c3joinroom : Room ℚ := c3joinreg.getD 0 (makeRoom (0, 0))

/-! ## Helper lemmas -/

theorem hitScan_gate_closed {now lastHitAt : Int}
    (h : ¬ now - lastHitAt > HIT_COOLDOWN_MS) (ownerId : Nat) (px py : K) :
    ∀ ps : List (Player K), hitScan now lastHitAt ownerId px py ps = none := by
  intro ps
  induction ps with
  | nil => rfl
  | cons t ts ih =>
    by_cases h1 : t.id = ownerId ∨ t.hp ≤ 0
    · simpa [hitScan, h1] using ih
    · simpa [hitScan, h1, h] using ih

theorem hitScan_eq_some {now lastHitAt : Int} {ownerId : Nat} {px py : K}
    {ps : List (Player K)} {t : Player K}
    (h : hitScan now lastHitAt ownerId px py ps = some t) :
    t ∈ ps ∧ t.id ≠ ownerId ∧ 0 < t.hp ∧
      (t.x - px) * (t.x - px) +
        (t.y - PLAYER_RADIUS K / 2 - py) * (t.y - PLAYER_RADIUS K / 2 - py) ≤
        (PLAYER_RADIUS K + PROJECTILE_RADIUS K) *
          (PLAYER_RADIUS K + PROJECTILE_RADIUS K) ∧
      now - lastHitAt > HIT_COOLDOWN_MS := by
  induction ps with
  | nil => simp [hitScan] at h
  | cons q ts ih =>
    by_cases h1 : q.id = ownerId ∨ q.hp ≤ 0
    · rw [hitScan, if_pos h1] at h
      obtain ⟨hm, rest⟩ := ih h
      exact ⟨List.mem_cons_of_mem _ hm, rest⟩
    · rw [hitScan, if_neg h1] at h
      push_neg at h1
      split at h
      · rename_i hcond
        cases h
        exact ⟨List.mem_cons_self _ _, h1.1, h1.2, hcond.1, hcond.2⟩
      · obtain ⟨hm, rest⟩ := ih h
        exact ⟨List.mem_cons_of_mem _ hm, rest⟩

theorem hitScan_isSome {now lastHitAt : Int} {ownerId : Nat} {px py : K}
    {ps : List (Player K)}
    (hg : now - lastHitAt > HIT_COOLDOWN_MS)
    (h : ∃ t ∈ ps, t.id ≠ ownerId ∧ 0 < t.hp ∧
      (t.x - px) * (t.x - px) +
        (t.y - PLAYER_RADIUS K / 2 - py) * (t.y - PLAYER_RADIUS K / 2 - py) ≤
        (PLAYER_RADIUS K + PROJECTILE_RADIUS K) *
          (PLAYER_RADIUS K + PROJECTILE_RADIUS K)) :
    (hitScan now lastHitAt ownerId px py ps).isSome = true := by
  induction ps with
  | nil => simp at h
  | cons q ts ih =>
    obtain ⟨t, ht, hid, hhp, hdist⟩ := h
    rcases List.mem_cons.mp ht with rfl | hts
    · rw [hitScan, if_neg (by push_neg; exact ⟨hid, hhp⟩), if_pos ⟨hdist, hg⟩]
      rfl
    · by_cases h1 : q.id = ownerId ∨ q.hp ≤ 0
      · rw [hitScan, if_pos h1]
        exact ih ⟨t, hts, hid, hhp, hdist⟩
      · rw [hitScan, if_neg h1]
        split
        · rfl
        · exact ih ⟨t, hts, hid, hhp, hdist⟩

theorem le_clamp (v lo hi : K) : lo ≤ clamp v lo hi := le_max_left _ _

theorem clamp_le {lo hi : K} (v : K) (h : lo ≤ hi) : clamp v lo hi ≤ hi :=
  max_le h (min_le_left _ _)

theorem mem_sweepPlayers {now : Int} {ps : List (Player K)} {p : Player K} :
    p ∈ sweepPlayers now ps ↔ p ∈ ps ∧ ¬ now - p.lastSeenAt > 30000 := by
  simp [sweepPlayers]

theorem sweepPlayers_sublist (now : Int) (ps : List (Player K)) :
    (sweepPlayers now ps).Sublist ps := List.filter_sublist _

theorem rebuildPlayers_length (now : Int) (i : Nat) (ps : List (Player K)) :
    (rebuildPlayers now i ps).length = ps.length := by
  induction ps generalizing i with
  | nil => rfl
  | cons p ps ih => simp [rebuildPlayers, ih]

theorem rebuildPlayers_ids (now : Int) (i : Nat) (ps : List (Player K)) :
    (rebuildPlayers now i ps).map Player.id = ps.map Player.id := by
  induction ps generalizing i with
  | nil => rfl
  | cons p ps ih => simp [rebuildPlayers, playerStartState, ih]

theorem mem_rebuildPlayers {now : Int} {i : Nat} {ps : List (Player K)}
    {p' : Player K} (h : p' ∈ rebuildPlayers now i ps) :
    ∃ p ∈ ps, p'.id = p.id ∧ p'.hp = p.hp ∧ p'.lastSeenAt = p.lastSeenAt ∧
      p'.cooldownUntil = 0 := by
  induction ps generalizing i with
  | nil => simp [rebuildPlayers] at h
  | cons p ps ih =>
    rcases List.mem_cons.mp h with rfl | h2
    · exact ⟨p, List.mem_cons_self _ _, rfl, rfl, rfl, rfl⟩
    · obtain ⟨q, hq, rest⟩ := ih h2
      exact ⟨q, List.mem_cons_of_mem _ hq, rest⟩

theorem rebuildPlayers_get (now : Int) (i : Nat) (ps : List (Player K))
    (k : Nat) (h : k < ps.length) (h2 : k < (rebuildPlayers now i ps).length) :
    (rebuildPlayers now i ps).get ⟨k, h2⟩ =
      { playerStartState (i + k) now (ps.get ⟨k, h⟩).id with
        hp := (ps.get ⟨k, h⟩).hp, lastSeenAt := (ps.get ⟨k, h⟩).lastSeenAt } := by
  induction ps generalizing i k with
  | nil => simp at h
  | cons p ps ih =>
    cases k with
    | zero => rfl
    | succ k =>
      have hk : k < ps.length := by simpa using h
      have hk2 : k < (rebuildPlayers now (i + 1) ps).length := by
        simpa [rebuildPlayers_length] using hk
      have hcast : i + (k + 1) = i + 1 + k := by omega
      have hstep : (rebuildPlayers now i (p :: ps)).get ⟨k + 1, h2⟩ =
          (rebuildPlayers now (i + 1) ps).get ⟨k, hk2⟩ := rfl
      rw [hstep, ih (i + 1) k hk hk2, hcast]
      rfl

/-- Case analysis for one `projectiles.filter` callback step: either the
room-state fields are untouched (expiry / no target), or a hit is resolved. -/
theorem processProj_eq (now : Int) (c : TickCtx K) (proj : Projectile K) :
    (∃ ks, processProj now c proj =
      { players := c.players, lastHitAt := c.lastHitAt, winner := c.winner,
        kept := ks }) ∨
    ∃ t, hitScan now c.lastHitAt (integrate proj).ownerId (integrate proj).x
        (integrate proj).y c.players = some t ∧
      processProj now c proj =
        { players := c.players.map (fun q =>
            if q.id = t.id then { q with hp := q.hp - 1 } else q)
          lastHitAt := now
          winner := if t.hp - 1 ≤ 0 then some (integrate proj).ownerId else c.winner
          kept := c.kept } := by
  rw [processProj]
  split
  · exact Or.inl ⟨c.kept, rfl⟩
  · split
    · exact Or.inl ⟨c.kept, rfl⟩
    · split
      · rename_i t heq
        exact Or.inr ⟨t, heq, rfl⟩
      · exact Or.inl ⟨c.kept ++ [integrate proj], rfl⟩

/-- Once a hit has set `lastHitAt = now` within a tick, the rest of the
filter pass can change nothing but the kept-projectile list. -/
theorem foldl_processProj_frozen (now : Int) (l : List (Projectile K))
    (c : TickCtx K) (h : ¬ now - c.lastHitAt > HIT_COOLDOWN_MS) :
    (l.foldl (processProj now) c).players = c.players ∧
    (l.foldl (processProj now) c).lastHitAt = c.lastHitAt ∧
    (l.foldl (processProj now) c).winner = c.winner := by
  induction l generalizing c with
  | nil => exact ⟨rfl, rfl, rfl⟩
  | cons p l ih =>
    rcases processProj_eq now c p with ⟨ks, heq⟩ | ⟨t, hscan, _⟩
    · rw [List.foldl_cons, heq]
      exact ih _ h
    · rw [hitScan_gate_closed h] at hscan
      exact absurd hscan (by simp)

/-- Dichotomy for a whole filter pass: either no hit was applied and the
players / `lastHitAt` / `winner` are unchanged, or the gate was open and
exactly one living target lost exactly one hit point, `lastHitAt` was set
to `now`, and `winner` was set iff that target dropped to 0. -/
theorem foldl_processProj_cases (now : Int) (l : List (Projectile K))
    (c : TickCtx K) :
    ((l.foldl (processProj now) c).players = c.players ∧
     (l.foldl (processProj now) c).lastHitAt = c.lastHitAt ∧
     (l.foldl (processProj now) c).winner = c.winner) ∨
    (now - c.lastHitAt > HIT_COOLDOWN_MS ∧
     (l.foldl (processProj now) c).lastHitAt = now ∧
     ∃ t ∈ c.players, 0 < t.hp ∧
       (l.foldl (processProj now) c).players =
         c.players.map (fun q =>
           if q.id = t.id then { q with hp := q.hp - 1 } else q) ∧
       ∃ o : Nat, (l.foldl (processProj now) c).winner =
         if t.hp - 1 ≤ 0 then some o else c.winner) := by
  induction l generalizing c with
  | nil => exact Or.inl ⟨rfl, rfl, rfl⟩
  | cons p l ih =>
    rw [List.foldl_cons]
    rcases processProj_eq now c p with ⟨ks, heq⟩ | ⟨t, hscan, heq⟩
    · rw [heq]
      exact ih ⟨c.players, c.lastHitAt, c.winner, ks⟩
    · obtain ⟨hmem, _, hhp, _, hgate⟩ := hitScan_eq_some hscan
      rw [heq]
      have hfrozen := foldl_processProj_frozen now l
        { players := c.players.map (fun q =>
            if q.id = t.id then { q with hp := q.hp - 1 } else q)
          lastHitAt := now
          winner := if t.hp - 1 ≤ 0 then some (integrate p).ownerId else c.winner
          kept := c.kept }
        (by simp [HIT_COOLDOWN_MS])
      refine Or.inr ⟨hgate, by simpa using hfrozen.2.1,
        t, hmem, hhp, by simpa using hfrozen.1,
        (integrate p).ownerId, by simpa using hfrozen.2.2⟩

theorem eq_of_mem_of_id_eq {ps : List (Player K)}
    (hnd : (ps.map Player.id).Nodup) {p q : Player K}
    (hp : p ∈ ps) (hq : q ∈ ps) (h : p.id = q.id) : p = q := by
  induction ps with
  | nil => simp at hp
  | cons a l ih =>
    rw [List.map_cons, List.nodup_cons] at hnd
    rcases List.mem_cons.mp hp with rfl | hp2
    · rcases List.mem_cons.mp hq with rfl | hq2
      · rfl
      · exact absurd (h ▸ List.mem_map_of_mem Player.id hq2) hnd.1
    · rcases List.mem_cons.mp hq with rfl | hq2
      · exact absurd (h ▸ List.mem_map_of_mem Player.id hp2) hnd.1
      · exact ih hnd.2 hp2 hq2

theorem hpDec_map_ids (t : Player K) (ps : List (Player K)) :
    (ps.map (fun q => if q.id = t.id then { q with hp := q.hp - 1 } else q)).map
      Player.id = ps.map Player.id := by
  induction ps with
  | nil => rfl
  | cons a l ih =>
    simp only [List.map_cons, ih]
    by_cases h : a.id = t.id <;> simp [h]

theorem tickRoom_none_iff (now : Int) (r : Room K) :
    tickRoom now r = none ↔ sweepPlayers now r.players = [] := by
  simp only [tickRoom]
  constructor
  · intro h
    by_cases h0 : (sweepPlayers now r.players).length = 0
    · exact List.length_eq_zero.mp h0
    · rw [if_neg h0] at h
      split at h <;> simp at h
  · intro h
    rw [if_pos (by simp [h])]

theorem tickRoom_skip {now : Int} {r : Room K}
    (hne : ¬ (sweepPlayers now r.players).length = 0)
    (hskip : ¬ (rebuildPlayers now 0 (sweepPlayers now r.players)).length = 2 ∨
      r.winner.isSome) :
    tickRoom now r = some { r with
      players := rebuildPlayers now 0 (sweepPlayers now r.players)
      started := decide ((rebuildPlayers now 0 (sweepPlayers now r.players)).length = 2) } := by
  simp only [tickRoom, if_neg hne]
  rw [if_pos]
  rcases hskip with h | h
  · exact Or.inl (by simpa using h)
  · exact Or.inr (by simpa using h)

theorem tickRoom_active {now : Int} {r : Room K}
    (h2 : (rebuildPlayers now 0 (sweepPlayers now r.players)).length = 2)
    (hw : r.winner = none) :
    tickRoom now r = some { r with
      players := (r.projectiles.foldl (processProj now)
        ⟨rebuildPlayers now 0 (sweepPlayers now r.players), r.lastHitAt, r.winner, []⟩).players
      projectiles := (r.projectiles.foldl (processProj now)
        ⟨rebuildPlayers now 0 (sweepPlayers now r.players), r.lastHitAt, r.winner, []⟩).kept
      lastHitAt := (r.projectiles.foldl (processProj now)
        ⟨rebuildPlayers now 0 (sweepPlayers now r.players), r.lastHitAt, r.winner, []⟩).lastHitAt
      started := decide ((rebuildPlayers now 0 (sweepPlayers now r.players)).length = 2)
      winner := (r.projectiles.foldl (processProj now)
        ⟨rebuildPlayers now 0 (sweepPlayers now r.players), r.lastHitAt, r.winner, []⟩).winner } := by
  have hne : ¬ (sweepPlayers now r.players).length = 0 := by
    intro h0
    rw [rebuildPlayers_length, h0] at h2
    exact absurd h2 (by norm_num)
  simp only [tickRoom, if_neg hne]
  rw [if_neg]
  push_neg
  exact ⟨by simpa using h2, by simp [hw]⟩

theorem tickRoom_ids {now : Int} {r r' : Room K} (h : tickRoom now r = some r') :
    r'.players.map Player.id = (sweepPlayers now r.players).map Player.id := by
  simp only [tickRoom] at h
  split at h
  · exact absurd h (by simp)
  · split at h
    · cases h
      exact rebuildPlayers_ids now 0 _
    · cases h
      rcases foldl_processProj_cases now r.projectiles
          ⟨rebuildPlayers now 0 (sweepPlayers now r.players), r.lastHitAt,
            r.winner, []⟩ with h1 | h1
      · rw [h1.1]
        exact rebuildPlayers_ids now 0 _
      · obtain ⟨_, _, t, _, _, hpl, _⟩ := h1
        rw [hpl, hpDec_map_ids]
        exact rebuildPlayers_ids now 0 _

theorem tickRoom_nodup {now : Int} {r r' : Room K}
    (hnd : (r.players.map Player.id).Nodup) (h : tickRoom now r = some r') :
    (r'.players.map Player.id).Nodup := by
  rw [tickRoom_ids h]
  exact hnd.sublist ((sweepPlayers_sublist now r.players).map Player.id)

theorem tickRoom_lastHitAt {now : Int} {r r' : Room K}
    (h : tickRoom now r = some r') :
    r'.lastHitAt = r.lastHitAt ∨ r'.lastHitAt = now := by
  simp only [tickRoom] at h
  split at h
  · exact absurd h (by simp)
  · split at h
    · cases h
      exact Or.inl rfl
    · cases h
      rcases foldl_processProj_cases now r.projectiles
          ⟨rebuildPlayers now 0 (sweepPlayers now r.players), r.lastHitAt,
            r.winner, []⟩ with h1 | h1
      · exact Or.inl h1.2.1
      · exact Or.inr h1.2.1

/-- Per-tick hp accounting: either no hp changed and `lastHitAt` is
untouched, or the hit gate was open, `lastHitAt` was set to `now`, and
exactly the sessions with one particular id (a living one) lost exactly one
hit point. -/
theorem tickRoom_hp {now : Int} {r r' : Room K}
    (hnd : (r.players.map Player.id).Nodup) (h : tickRoom now r = some r') :
    (r'.lastHitAt = r.lastHitAt ∧
      ∀ p ∈ r.players, ∀ p' ∈ r'.players, p'.id = p.id → p'.hp = p.hp) ∨
    (now - r.lastHitAt > HIT_COOLDOWN_MS ∧ r'.lastHitAt = now ∧
      ∃ tid : Nat, (∃ p ∈ r.players, p.id = tid ∧ 0 < p.hp) ∧
        (∃ p' ∈ r'.players, p'.id = tid) ∧
        ∀ p ∈ r.players, ∀ p' ∈ r'.players, p'.id = p.id →
          p'.hp = if p.id = tid then p.hp - 1 else p.hp) := by
  have hmatch : ∀ p ∈ r.players, ∀ p' ∈ rebuildPlayers now 0 (sweepPlayers now r.players),
      p'.id = p.id → p'.hp = p.hp := by
    intro p hp p' hp' hid
    obtain ⟨q, hq, hqid, hqhp, _, _⟩ := mem_rebuildPlayers hp'
    have hqmem : q ∈ r.players := (mem_sweepPlayers.mp hq).1
    have : q = p := eq_of_mem_of_id_eq hnd hqmem hp (by rw [← hqid, hid])
    rw [hqhp, this]
  simp only [tickRoom] at h
  split at h
  · exact absurd h (by simp)
  · split at h
    · cases h
      exact Or.inl ⟨rfl, hmatch⟩
    · cases h
      rcases foldl_processProj_cases now r.projectiles
          ⟨rebuildPlayers now 0 (sweepPlayers now r.players), r.lastHitAt,
            r.winner, []⟩ with h1 | h1
      · refine Or.inl ⟨h1.2.1, ?_⟩
        rw [h1.1]
        exact hmatch
      · obtain ⟨hgate, hlast, t, htmem, hthp, hpl, _, _⟩ := h1
        refine Or.inr ⟨hgate, hlast, t.id, ?_, ?_, ?_⟩
        · obtain ⟨q, hq, hqid, hqhp, _, _⟩ := mem_rebuildPlayers htmem
          exact ⟨q, (mem_sweepPlayers.mp hq).1, hqid.symm, hqhp ▸ hthp⟩
        · refine ⟨{ t with hp := t.hp - 1 }, ?_, rfl⟩
          rw [hpl]
          have := List.mem_map_of_mem
            (fun q => if q.id = t.id then { q with hp := q.hp - 1 } else q) htmem
          simpa using this
        · intro p hp p' hp' hid
          rw [hpl] at hp'
          obtain ⟨q, hq, rfl⟩ := List.mem_map.mp hp'
          have hqid : (if q.id = t.id then { q with hp := q.hp - 1 } else q).id = q.id := by
            split <;> rfl
          rw [hqid] at hid
          have hqhp : (if q.id = t.id then { q with hp := q.hp - 1 } else q).hp =
              if q.id = t.id then q.hp - 1 else q.hp := by
            split <;> rfl
          rw [hqhp, hmatch p hp q hq hid, hid]

/-! ## Claim theorems -/

/-- **C1** (code bug): the claim says that after a successful fire at time
`t`, no second fire by the same session succeeds at any `t'` with
`t' - t < 1500` ms, over every interleaving of fire requests with scheduler
ticks.  The code violates this: the per-tick session rebuild
(`{ id, ...playerStartState(index), hp, lastSeenAt }`) resets
`cooldownUntil` to 0 on every tick, so after a fire at t = 1000 and a tick
at t = 1016, a second fire at t = 1020 — 20 ms after the first — is
accepted again.  Without the intervening tick the second fire is rejected
with the pending deadline 1000 + 1500, showing the per-fire bookkeeping
itself matches the claim. -/
theorem c1_fire_cooldown_bypassed_by_tick :
    (runOps cosQ sinQ piQ [] c1ops).2 = [FireResp.fired, FireResp.fired] ∧
    (1020 : Int) - 1000 < FIRE_COOLDOWN_MS ∧
    (runOps cosQ sinQ piQ [] c1opsNoTick).2 =
      [FireResp.fired, FireResp.coolingDown (1000 + FIRE_COOLDOWN_MS)] :=
  ⟨by decide, by decide, by decide⟩

/-- **C6**: the collision scan finds a target exactly when the room-wide hit
gate is open and some session other than the projectile's owner, with
`hp > 0`, has squared distance from the projectile center to the point
`(target.x, target.y - 28/2)` at most `(28 + 8)^2`; whenever it returns a
target, that target is a living non-owner within that squared distance. -/
theorem c6_collision_test (now lastHitAt : Int) (ownerId : Nat) (px py : K)
    (ps : List (Player K)) :
    ((hitScan now lastHitAt ownerId px py ps).isSome = true ↔
      now - lastHitAt > HIT_COOLDOWN_MS ∧
      ∃ t ∈ ps, t.id ≠ ownerId ∧ 0 < t.hp ∧
        (t.x - px) * (t.x - px) + (t.y - 28 / 2 - py) * (t.y - 28 / 2 - py) ≤
          ((28 : K) + 8) * (28 + 8)) ∧
    ∀ t : Player K, hitScan now lastHitAt ownerId px py ps = some t →
      t ∈ ps ∧ t.id ≠ ownerId ∧ 0 < t.hp ∧
        (t.x - px) * (t.x - px) + (t.y - 28 / 2 - py) * (t.y - 28 / 2 - py) ≤
          ((28 : K) + 8) * (28 + 8) := by
  constructor
  · constructor
    · intro h
      obtain ⟨t, ht⟩ := Option.isSome_iff_exists.mp h
      obtain ⟨hmem, hid, hhp, hdist, hgate⟩ := hitScan_eq_some ht
      exact ⟨hgate, t, hmem, hid, hhp, hdist⟩
    · intro ⟨hgate, h⟩
      exact hitScan_isSome hgate h
  · intro t ht
    obtain ⟨hmem, hid, hhp, hdist, _⟩ := hitScan_eq_some ht
    exact ⟨hmem, hid, hhp, hdist⟩

/-- Witness for C6 at a concrete input: the projectile center `(880, 466)`
is exactly on player 101's hurtbox center, so the scan finds it; the found
target is player 101 with its recorded properties. -/
theorem c6_collision_witness :
    (hitScan 1000 0 100 (880 : ℚ) 466 c2room.players).isSome = true ∧
    ((⟨101, 1, 5, 0, 880, 480, "#ff5b8a", -1, 1000⟩ : Player ℚ) ∈ c2room.players ∧
      (⟨101, 1, 5, 0, 880, 480, "#ff5b8a", -1, 1000⟩ : Player ℚ).id ≠ 100 ∧
      0 < (⟨101, 1, 5, 0, 880, 480, "#ff5b8a", -1, 1000⟩ : Player ℚ).hp ∧
      ((880 : ℚ) - 880) * (880 - 880) + (480 - 28 / 2 - 466) * (480 - 28 / 2 - 466) ≤
        ((28 : ℚ) + 8) * (28 + 8)) :=
  ⟨(c6_collision_test 1000 0 100 (880 : ℚ) 466 c2room.players).1.mpr (by decide),
   (c6_collision_test 1000 0 100 (880 : ℚ) 466 c2room.players).2 _ (by decide)⟩

/-- **C4**: an accepted fire appends exactly the projectile built by
`fireProjectile` from the firing session; that projectile spawns at
`(x, y - 28)` and has velocity
`(cos effectiveAngle, sin effectiveAngle) * clampedPower`, where the power
is the client value coerced (`none ↦ 0`) and clamped to `[150, 900]`, the
angle is coerced and clamped to `[-π + 0.15, -0.15]`, and the effective
angle is the clamped angle for `facing = 1` and `π - angle` otherwise. -/
theorem c4_fire_action :
    (∀ (now : Int) (playerId : Nat) (power angle : Option ℝ) (r : Room ℝ),
      (roomFire Real.cos Real.sin Real.pi now playerId power angle r).2 =
        FireResp.fired →
      ∃ player ∈ r.players, player.id = playerId ∧
        (roomFire Real.cos Real.sin Real.pi now playerId power angle r).1.projectiles =
          r.projectiles ++
            [fireProjectile Real.cos Real.sin Real.pi now player power angle]) ∧
    (∀ (now : Int) (player : Player ℝ) (power angle : Option ℝ),
      ∃ p a : ℝ,
        p = clamp (power.getD 0) 150 900 ∧ 150 ≤ p ∧ p ≤ 900 ∧
        a = clamp (angle.getD 0) (-Real.pi + 15 / 100) (-(15 / 100)) ∧
        -Real.pi + 15 / 100 ≤ a ∧ a ≤ -(15 / 100) ∧
        fireProjectile Real.cos Real.sin Real.pi now player power angle =
          { id := (player.id, now)
            ownerId := player.id
            x := player.x
            y := player.y - 28
            vx := Real.cos (if player.facing = 1 then a else Real.pi - a) * p
            vy := Real.sin (if player.facing = 1 then a else Real.pi - a) * p
            bornAt := now }) := by
  constructor
  · intro now playerId power angle r h
    rcases hfind : r.players.find? (fun p => p.id = playerId) with _ | player
    · rw [roomFire, hfind] at h
      exact absurd h (by simp)
    · have hid := List.find?_some hfind
      by_cases hw : r.winner.isSome = true
      · simp only [roomFire, hfind, if_pos hw] at h
        exact absurd h (by simp)
      · by_cases hc : player.cooldownUntil > now
        · simp only [roomFire, hfind, if_neg hw, if_pos hc] at h
          exact absurd h (by simp)
        · refine ⟨player, List.mem_of_find?_eq_some hfind, of_decide_eq_true hid, ?_⟩
          simp only [roomFire, hfind, if_neg hw, if_neg hc]
  · intro now player power angle
    refine ⟨clamp (power.getD 0) 150 900,
      clamp (angle.getD 0) (-Real.pi + 15 / 100) (-(15 / 100)),
      rfl, le_clamp _ _ _, clamp_le _ (by norm_num), rfl,
      le_clamp _ _ _, clamp_le _ ?_, rfl⟩
    have h3 := Real.pi_gt_three
    linarith

/-- Witness for C4: in the concrete room `c4room`, a fire by player 100 at
t = 50 with absent power and angle is accepted; the appended projectile is
the `fireProjectile` of that session, and the clamp properties hold at this
input. -/
theorem c4_fire_witness :
    (∃ player ∈ c4room.players, player.id = 100 ∧
      (roomFire Real.cos Real.sin Real.pi 50 100 none none c4room).1.projectiles =
        c4room.projectiles ++
          [fireProjectile Real.cos Real.sin Real.pi 50 player none none]) ∧
    (∃ p a : ℝ,
      p = clamp ((none : Option ℝ).getD 0) 150 900 ∧ 150 ≤ p ∧ p ≤ 900 ∧
      a = clamp ((none : Option ℝ).getD 0) (-Real.pi + 15 / 100) (-(15 / 100)) ∧
      -Real.pi + 15 / 100 ≤ a ∧ a ≤ -(15 / 100) ∧
      fireProjectile Real.cos Real.sin Real.pi 50
          ⟨100, 0, 5, 0, 120, 480, "#4c9dff", 1, 0⟩ none none =
        { id := (100, 50)
          ownerId := 100
          x := (⟨100, 0, 5, 0, 120, 480, "#4c9dff", 1, 0⟩ : Player ℝ).x
          y := (⟨100, 0, 5, 0, 120, 480, "#4c9dff", 1, 0⟩ : Player ℝ).y - 28
          vx := Real.cos (if (1 : Int) = 1 then a else Real.pi - a) * p
          vy := Real.sin (if (1 : Int) = 1 then a else Real.pi - a) * p
          bornAt := 50 }) :=
  ⟨c4_fire_action.1 50 100 none none c4room rfl,
   c4_fire_action.2 50 ⟨100, 0, 5, 0, 120, 480, "#4c9dff", 1, 0⟩ none none⟩

/-- **C7** counterexample: restarting `c7room` (whose only session was last
seen at t = 100) at t = 5000 rewrites the session's `lastSeenAt` to 5000 —
`resetRoom` spreads `playerStartState(slot)`, whose `lastSeenAt` is the
fresh `Date.now()` — contradicting the claim that each session's last-seen
timestamp is preserved unchanged. -/
theorem c7_restart_overwrites_lastSeen :
    ((apiRestart 5000 (7, 0) [c7room]).1.map
      (fun r => r.players.map (fun p => p.lastSeenAt))) = [[5000]] ∧
    (5000 : Int) ≠ 100 :=
  ⟨by decide, by decide⟩

/-- **C7** (amended): after a restart of a known room at time `now`, the
projectile list is empty, `winner` is `null`, `lastHitAt` is 0, and every
session has hp 5, its slot's spawn position, and `cooldownUntil = 0`, with
its identity (id and slot) preserved — but its last-seen timestamp is set
to the restart time `now`, not preserved. -/
theorem c7_restart_resets (now : Int) (roomId : Int × Nat)
    (rs : List (Room K)) (r : Room K)
    (hfind : rs.find? (fun q => q.id = roomId) = some r) :
    (apiRestart now roomId rs).1 = roomsSet rs (roomRestart now r) ∧
    (apiRestart now roomId rs).2 = true ∧
    (roomRestart now r).projectiles = [] ∧
    (roomRestart now r).winner = none ∧
    (roomRestart now r).lastHitAt = 0 ∧
    (roomRestart now r).players.length = r.players.length ∧
    ∀ p' ∈ (roomRestart now r).players, ∃ p ∈ r.players,
      p'.id = p.id ∧ p'.slot = p.slot ∧ p'.hp = 5 ∧ p'.cooldownUntil = 0 ∧
      p'.x = (if p.slot = 0 then (120 : K) else 1000 - 120) ∧
      p'.y = 560 - 80 ∧ p'.lastSeenAt = now := by
  refine ⟨by simp only [apiRestart, hfind], by simp only [apiRestart, hfind],
    rfl, rfl, rfl, by simp [roomRestart, resetRoom], ?_⟩
  intro p' hp'
  simp only [roomRestart, resetRoom] at hp'
  obtain ⟨p, hp, rfl⟩ := List.mem_map.mp hp'
  exact ⟨p, hp, rfl, rfl, rfl, rfl, rfl, rfl, rfl⟩

/-- Witness for C7 (amended) on `c7room` at t = 5000: the handler reports
success and the reset session is read back from the theorem. -/
theorem c7_restart_witness :
    (apiRestart 5000 (7, 0) [c7room]).2 = true ∧
    ∀ p' ∈ (roomRestart 5000 c7room).players, ∃ p ∈ c7room.players,
      p'.id = p.id ∧ p'.slot = p.slot ∧ p'.hp = 5 ∧ p'.cooldownUntil = 0 ∧
      p'.x = (if p.slot = 0 then (120 : ℚ) else 1000 - 120) ∧
      p'.y = 560 - 80 ∧ p'.lastSeenAt = 5000 :=
  ⟨(c7_restart_resets 5000 (7, 0) [c7room] c7room (by decide)).2.1,
   (c7_restart_resets 5000 (7, 0) [c7room] c7room (by decide)).2.2.2.2.2.2⟩

theorem playersSet_append {ps : List (Player K)} {p : Player K}
    (h : ∀ q ∈ ps, q.id ≠ p.id) : playersSet ps p = ps ++ [p] := by
  rw [playersSet, if_neg]
  simp only [List.any_eq_true, decide_eq_true_eq, not_exists, not_and]
  exact h

/-- **C8**: `findOrCreateRoom` always returns a room with fewer than two
sessions and no winner; when no existing room qualifies it allocates a
fresh room under the environment-generated id (appended to the registry
when that id is new); a join assigns slot = current occupant count, spawns
the new session at that slot's spawn point, and sets `started` exactly when
the room reaches two occupants. -/
theorem c8_matchmaking_join :
    (∀ (rs : List (Room K)) (freshId : Int × Nat),
      (findOrCreateRoom rs freshId).1.players.length < 2 ∧
      (findOrCreateRoom rs freshId).1.winner = none) ∧
    (∀ (rs : List (Room K)) (freshId : Int × Nat),
      (∀ r ∈ rs, ¬(r.players.length < 2 ∧ r.winner = none)) →
      (∀ r ∈ rs, r.id ≠ freshId) →
      findOrCreateRoom rs freshId = (makeRoom freshId, rs ++ [makeRoom freshId])) ∧
    (∀ (now : Int) (playerId : Nat) (r : Room K),
      (∀ p ∈ r.players, p.id ≠ playerId) →
      (roomJoin now playerId r).2 = r.players.length ∧
      (roomJoin now playerId r).1.players =
        r.players ++ [playerStartState r.players.length now playerId] ∧
      ((roomJoin now playerId r).1.started = true ↔ r.players.length + 1 = 2)) ∧
    (∀ (slot : Nat) (now : Int) (id : Nat),
      (playerStartState slot now id : Player K).slot = slot ∧
      (playerStartState slot now id : Player K).x =
        (if slot = 0 then 120 else 1000 - 120) ∧
      (playerStartState slot now id : Player K).y = 560 - 80) := by
  refine ⟨?_, ?_, ?_, ?_⟩
  · intro rs freshId
    rcases hfind : rs.find? (fun r => r.players.length < 2 ∧ r.winner = none)
        with _ | r
    · rw [findOrCreateRoom, hfind]
      exact ⟨by simp [makeRoom], rfl⟩
    · rw [findOrCreateRoom, hfind]
      have h1 := List.find?_some hfind
      exact of_decide_eq_true h1
  · intro rs freshId hnone hfresh
    have hfind : rs.find? (fun r => r.players.length < 2 ∧ r.winner = none) = none :=
      List.find?_eq_none.mpr (fun r hr => by simpa using hnone r hr)
    rw [findOrCreateRoom, hfind]
    show (makeRoom freshId, roomsSet rs (makeRoom freshId)) = _
    rw [roomsSet, if_neg]
    simp only [List.any_eq_true, decide_eq_true_eq, not_exists, not_and]
    intro q hq
    exact hfresh q hq
  · intro now playerId r hfresh
    have happ : playersSet r.players (playerStartState r.players.length now playerId) =
        r.players ++ [playerStartState r.players.length now playerId] :=
      playersSet_append (fun q hq => hfresh q hq)
    refine ⟨rfl, happ, ?_⟩
    have hst : (roomJoin now playerId r).1.started =
        decide ((playersSet r.players
          (playerStartState r.players.length now playerId)).length = 2) := rfl
    rw [hst, happ]
    simp [List.length_append]
  · intro slot now id
    exact ⟨rfl, rfl, rfl⟩

/-- Witness for C8: in a registry whose only room is full, a join at a fresh
id allocates a new room; a join into the empty fresh room gets slot 0 at
the left spawn point and does not start the room. -/
theorem c8_matchmaking_witness :
    findOrCreateRoom [c2room] (5, 5) =
      (makeRoom (5, 5), [c2room] ++ [makeRoom (5, 5)]) ∧
    (roomJoin 3 200 (makeRoom (5, 5) : Room ℚ)).2 = (makeRoom (5, 5) : Room ℚ).players.length ∧
    ((roomJoin 3 200 (makeRoom (5, 5) : Room ℚ)).1.started = true ↔
      (makeRoom (5, 5) : Room ℚ).players.length + 1 = 2) :=
  ⟨c8_matchmaking_join.2.1 [c2room] (5, 5) (by decide) (by decide),
   (c8_matchmaking_join.2.2.1 3 200 (makeRoom (5, 5)) (by decide)).1,
   (c8_matchmaking_join.2.2.1 3 200 (makeRoom (5, 5)) (by decide)).2.2⟩

/-- **C9**: on a sweep, every surviving session comes from a session of the
old room that was seen within the last 30 s (so every stale session is
removed — with distinct ids no session with a stale session's id survives);
a room whose sweep leaves zero sessions is deleted (`tickRoom = none`), and
the registry keeps exactly the non-deleted rooms; when exactly one session
survives the sweep, it is reassigned slot 0 and respawned at the left spawn
point `(120, 480)` with `hp` and `lastSeenAt` preserved. -/
theorem c9_liveness_sweep :
    (∀ (now : Int) (r r' : Room K), tickRoom now r = some r' →
      ∀ p' ∈ r'.players, ∃ p ∈ r.players,
        p'.id = p.id ∧ ¬ now - p.lastSeenAt > 30000) ∧
    (∀ (now : Int) (r : Room K) (p : Player K),
      (r.players.map Player.id).Nodup → p ∈ r.players →
      now - p.lastSeenAt > 30000 →
      ∀ r', tickRoom now r = some r' → ∀ p' ∈ r'.players, p'.id ≠ p.id) ∧
    (∀ (now : Int) (r : Room K),
      tickRoom now r = none ↔ sweepPlayers now r.players = []) ∧
    (∀ (now : Int) (rs : List (Room K)),
      tickRegistry now rs = rs.filterMap (tickRoom now)) ∧
    (∀ (now : Int) (r : Room K) (p : Player K),
      sweepPlayers now r.players = [p] →
      tickRoom now r = some { r with
        players := [{ id := p.id
                      slot := 0
                      hp := p.hp
                      cooldownUntil := 0
                      x := 120
                      y := 560 - 80
                      color := "#4c9dff"
                      facing := 1
                      lastSeenAt := p.lastSeenAt }]
        started := false }) := by
  refine ⟨?_, ?_, ?_, fun _ _ => rfl, ?_⟩
  · intro now r r' h p' hp'
    have hid : p'.id ∈ (sweepPlayers now r.players).map Player.id := by
      rw [← tickRoom_ids h]
      exact List.mem_map_of_mem Player.id hp'
    obtain ⟨q, hq, hqid⟩ := List.mem_map.mp hid
    obtain ⟨hqmem, hfresh⟩ := mem_sweepPlayers.mp hq
    exact ⟨q, hqmem, hqid.symm, hfresh⟩
  · intro now r p hnd hp hstale r' h p' hp' hcontra
    have hid : p'.id ∈ (sweepPlayers now r.players).map Player.id := by
      rw [← tickRoom_ids h]
      exact List.mem_map_of_mem Player.id hp'
    obtain ⟨q, hq, hqid⟩ := List.mem_map.mp hid
    obtain ⟨hqmem, hfresh⟩ := mem_sweepPlayers.mp hq
    have : q = p := eq_of_mem_of_id_eq hnd hqmem hp (by rw [hqid, hcontra])
    exact hfresh (this ▸ hstale)
  · intro now r
    exact tickRoom_none_iff now r
  · intro now r p hsweep
    have hne : ¬ (sweepPlayers now r.players).length = 0 := by
      rw [hsweep]
      simp
    have hskip : ¬ (rebuildPlayers now 0 (sweepPlayers now r.players)).length = 2 ∨
        r.winner.isSome := by
      left
      rw [hsweep]
      simp [rebuildPlayers]
    rw [tickRoom_skip hne hskip, hsweep]
    rfl

/-- Witness for C9 on `c9room` at t = 40000: player 100 (last seen t = 1000)
is stale and gone, player 101 survives, is reassigned slot 0 and respawns at
`(120, 480)` keeping hp 4 and its last-seen timestamp. -/
theorem c9_liveness_witness :
    tickRoom 40000 c9room = some { c9room with
      players := [(⟨101, 0, 4, 0, 120, 560 - 80, "#4c9dff", 1, 50000⟩ : Player ℚ)]
      started := false } ∧
    (∀ p' ∈ [(⟨101, 0, 4, 0, 120, 560 - 80, "#4c9dff", 1, 50000⟩ : Player ℚ)],
      p'.id ≠ 100) ∧
    (tickRoom 40000 { c9room with players := [] } = none ↔
      sweepPlayers 40000 (Room.players { c9room with players := [] }) = []) := by
  refine ⟨?_, ?_, ?_⟩
  · exact c9_liveness_sweep.2.2.2.2 40000 c9room
      ⟨101, 1, 4, 7000, 880, 480, "#ff5b8a", -1, 50000⟩ (by decide)
  · intro p' hp'
    refine c9_liveness_sweep.2.1 40000 c9room
      ⟨100, 0, 5, 0, 120, 480, "#4c9dff", 1, 1000⟩ (by decide) (by decide)
      (by decide)
      { c9room with
        players := [(⟨101, 0, 4, 0, 120, 560 - 80, "#4c9dff", 1, 50000⟩ : Player ℚ)]
        started := false } ?_ p' ?_
    · exact c9_liveness_sweep.2.2.2.2 40000 c9room
        ⟨101, 1, 4, 7000, 880, 480, "#ff5b8a", -1, 50000⟩ (by decide)
    · simpa using hp'
  · exact c9_liveness_sweep.2.2.1 40000 { c9room with players := [] }

/-- **C10**: the per-tick session rebuild maps the `k`-th surviving session
(in key order) to a session whose `slot`, position, `color`, `facing` and
`cooldownUntil` are that index's initial values — `cooldownUntil` becomes 0
and the position returns to the spawn point — preserving only `hp`,
`lastSeenAt` (and the id); `tickRoom` applies this rewrite to every
surviving room on every tick, including full two-player rooms and rooms
with a winner (where the session list is exactly the rebuild); in an active
room only a hit later in the same tick can further change a session, and
then only its hp, by 1. -/
theorem c10_per_tick_rebuild :
    (∀ (now : Int) (ps : List (Player K)),
      (rebuildPlayers now 0 ps).length = ps.length ∧
      ∀ (k : Nat) (h : k < ps.length) (h2 : k < (rebuildPlayers now 0 ps).length),
        (rebuildPlayers now 0 ps).get ⟨k, h2⟩ =
          { id := (ps.get ⟨k, h⟩).id, slot := k, hp := (ps.get ⟨k, h⟩).hp,
            cooldownUntil := 0,
            x := if k = 0 then 120 else 1000 - 120, y := 560 - 80,
            color := if k = 0 then "#4c9dff" else "#ff5b8a",
            facing := if k = 0 then 1 else -1,
            lastSeenAt := (ps.get ⟨k, h⟩).lastSeenAt }) ∧
    (∀ (now : Int) (r r' : Room K), tickRoom now r = some r' →
      r'.players.length = (sweepPlayers now r.players).length ∧
      ∀ (k : Nat) (h2 : k < (rebuildPlayers now 0 (sweepPlayers now r.players)).length)
        (h3 : k < r'.players.length),
        r'.players.get ⟨k, h3⟩ =
          (rebuildPlayers now 0 (sweepPlayers now r.players)).get ⟨k, h2⟩ ∨
        r'.players.get ⟨k, h3⟩ =
          { (rebuildPlayers now 0 (sweepPlayers now r.players)).get ⟨k, h2⟩ with
            hp := ((rebuildPlayers now 0 (sweepPlayers now r.players)).get ⟨k, h2⟩).hp - 1 }) ∧
    (∀ (now : Int) (r r' : Room K), r.winner.isSome → tickRoom now r = some r' →
      r'.players = rebuildPlayers now 0 (sweepPlayers now r.players)) := by
  refine ⟨?_, ?_, ?_⟩
  · intro now ps
    refine ⟨rebuildPlayers_length now 0 ps, ?_⟩
    intro k h h2
    rw [rebuildPlayers_get now 0 ps k h h2]
    have h0 : 0 + k = k := Nat.zero_add k
    rw [h0]
    cases Nat.eq_zero_or_pos k with
    | inl h => subst h; rfl
    | inr hpos =>
      have : ¬ k = 0 := Nat.pos_iff_ne_zero.mp hpos
      simp [playerStartState, this, ARENA_WIDTH, ARENA_HEIGHT, START_HP]
  · intro now r r' h
    have hlen : r'.players.length = (sweepPlayers now r.players).length := by
      have := congrArg List.length (tickRoom_ids h)
      simpa using this
    refine ⟨hlen, ?_⟩
    intro k h2 h3
    simp only [tickRoom] at h
    split at h
    · exact absurd h (by simp)
    · split at h
      · cases h
        exact Or.inl rfl
      · cases h
        rcases foldl_processProj_cases now r.projectiles
            ⟨rebuildPlayers now 0 (sweepPlayers now r.players), r.lastHitAt,
              r.winner, []⟩ with h1 | h1
        · revert h3
          dsimp only
          rw [h1.1]
          intro h3
          exact Or.inl rfl
        · obtain ⟨_, _, t, _, _, hpl, _⟩ := h1
          revert h3
          dsimp only
          rw [hpl]
          intro h3
          rw [List.get_map]
          by_cases hid : ((rebuildPlayers now 0 (sweepPlayers now r.players)).get
              ⟨k, by simpa using h3⟩).id = t.id
          · exact Or.inr (by simp only [if_pos hid])
          · exact Or.inl (by simp only [if_neg hid])
  · intro now r r' hw h
    have hne : ¬ (sweepPlayers now r.players).length = 0 := by
      intro h0
      rw [(tickRoom_none_iff now r).mpr (List.length_eq_zero.mp h0)] at h
      exact absurd h (by simp)
    rw [tickRoom_skip hne (Or.inr hw)] at h
    cases h
    rfl

/-- Witness for C10 on `c10room` (a finished two-player room whose sessions
carry pending cooldowns): the tick rewrites both sessions from their index,
resetting `cooldownUntil` 9999 to 0. -/
theorem c10_per_tick_rebuild_witness :
    ({ c10room with
        players := rebuildPlayers 1000 0 (sweepPlayers 1000 c10room.players) } : Room ℚ).players
      = rebuildPlayers 1000 0 (sweepPlayers 1000 c10room.players) ∧
    ({ c10room with
        players := rebuildPlayers 1000 0 (sweepPlayers 1000 c10room.players) } : Room ℚ).players.length
      = (sweepPlayers 1000 c10room.players).length ∧
    ((rebuildPlayers 1000 0 (sweepPlayers 1000 c10room.players)).map
      (fun p => p.cooldownUntil)) = [0, 0] :=
  ⟨c10_per_tick_rebuild.2.2 1000 c10room
      { c10room with
        players := rebuildPlayers 1000 0 (sweepPlayers 1000 c10room.players) }
      (by decide) (by decide),
   (c10_per_tick_rebuild.2.1 1000 c10room
      { c10room with
        players := rebuildPlayers 1000 0 (sweepPlayers 1000 c10room.players) }
      (by decide)).1,
   by decide⟩

/-- **C5**: each live projectile of a started, winnerless room is advanced
with fixed `dt = 1/60` — first `vy += 900*dt`, then `(x, y) += (vx*dt, vy*dt)`
with the updated `vy` — and, after integration, is removed exactly when
(checked short-circuit in this order) its age exceeds 6000 ms, or its
position satisfies `x < -100 ∨ x > 1100 ∨ y > 660` (no upper-edge check), or
it scores a hit; expiry removes the projectile with no effect on any session
or on `lastHitAt`/`winner`, even when it overlaps a target. -/
theorem c5_physics_tick :
    (∀ proj : Projectile K,
      integrate proj = { proj with
        vy := proj.vy + 900 * (1 / 60)
        x := proj.x + proj.vx * (1 / 60)
        y := proj.y + (proj.vy + 900 * (1 / 60)) * (1 / 60) }) ∧
    (∀ (now : Int) (c : TickCtx K) (proj : Projectile K),
      (processProj now c proj).kept = c.kept ↔
        (now - proj.bornAt > 6000 ∨
         ((integrate proj).x < -100 ∨ (integrate proj).x > 1000 + 100 ∨
          (integrate proj).y > 560 + 100) ∨
         (hitScan now c.lastHitAt (integrate proj).ownerId (integrate proj).x
            (integrate proj).y c.players).isSome = true)) ∧
    (∀ (now : Int) (c : TickCtx K) (proj : Projectile K),
      (now - proj.bornAt > 6000 ∨
        ((integrate proj).x < -100 ∨ (integrate proj).x > 1000 + 100 ∨
         (integrate proj).y > 560 + 100)) →
      processProj now c proj = c) ∧
    (∀ (now : Int) (c : TickCtx K) (proj : Projectile K),
      ¬ now - proj.bornAt > 6000 →
      ¬((integrate proj).x < -100 ∨ (integrate proj).x > 1000 + 100 ∨
        (integrate proj).y > 560 + 100) →
      hitScan now c.lastHitAt (integrate proj).ownerId (integrate proj).x
        (integrate proj).y c.players = none →
      processProj now c proj = { c with kept := c.kept ++ [integrate proj] }) ∧
    (∀ (now : Int) (r : Room K),
      (rebuildPlayers now 0 (sweepPlayers now r.players)).length = 2 →
      r.winner = none →
      tickRoom now r = some { r with
        players := (r.projectiles.foldl (processProj now)
          ⟨rebuildPlayers now 0 (sweepPlayers now r.players), r.lastHitAt,
            r.winner, []⟩).players
        projectiles := (r.projectiles.foldl (processProj now)
          ⟨rebuildPlayers now 0 (sweepPlayers now r.players), r.lastHitAt,
            r.winner, []⟩).kept
        lastHitAt := (r.projectiles.foldl (processProj now)
          ⟨rebuildPlayers now 0 (sweepPlayers now r.players), r.lastHitAt,
            r.winner, []⟩).lastHitAt
        started := true
        winner := (r.projectiles.foldl (processProj now)
          ⟨rebuildPlayers now 0 (sweepPlayers now r.players), r.lastHitAt,
            r.winner, []⟩).winner }) := by
  refine ⟨fun proj => rfl, ?_, ?_, ?_, ?_⟩
  · intro now c proj
    have hb : (integrate proj).bornAt = proj.bornAt := rfl
    simp only [processProj, PROJECTILE_LIFETIME_MS, ARENA_WIDTH, ARENA_HEIGHT, hb]
    by_cases hage : now - proj.bornAt > 6000
    · rw [if_pos hage]
      simp [hage]
    · rw [if_neg hage]
      by_cases hoob : (integrate proj).x < -100 ∨ (integrate proj).x > 1000 + 100 ∨
          (integrate proj).y > 560 + 100
      · rw [if_pos hoob]
        simp [hage, hoob]
      · rw [if_neg hoob]
        rcases hscan : hitScan now c.lastHitAt (integrate proj).ownerId
            (integrate proj).x (integrate proj).y c.players with _ | t
        · constructor
          · intro hk
            have := congrArg List.length hk
            simp at this
          · intro hk
            rcases hk with h | h | h
            · exact absurd h hage
            · exact absurd h hoob
            · simp at h
        · simp
  · intro now c proj h
    have hb : (integrate proj).bornAt = proj.bornAt := rfl
    simp only [processProj, PROJECTILE_LIFETIME_MS, ARENA_WIDTH, ARENA_HEIGHT, hb]
    rcases h with h | h
    · rw [if_pos h]
    · by_cases hage : now - proj.bornAt > 6000
      · rw [if_pos hage]
      · rw [if_neg hage, if_pos h]
  · intro now c proj hage hoob hscan
    have hb : (integrate proj).bornAt = proj.bornAt := rfl
    simp only [processProj, PROJECTILE_LIFETIME_MS, ARENA_WIDTH, ARENA_HEIGHT, hb]
    rw [if_neg hage, if_neg hoob, hscan]
  · intro now r h2 hw
    rw [tickRoom_active h2 hw]
    rw [h2]
    rfl

/-- Witness for C5 at concrete inputs: an expired projectile overlapping a
target is removed with no state change; an in-flight projectile away from
both sessions is integrated and kept; and on `c2room` (two sessions, no
winner) the tick runs the projectile filter. -/
theorem c5_physics_witness :
    processProj 1000
        (⟨c2room.players, 0, none, []⟩ : TickCtx ℚ)
        ⟨(100, -6000), 100, 880, 466, 0, -15, -6000⟩ =
      (⟨c2room.players, 0, none, []⟩ : TickCtx ℚ) ∧
    processProj 1000
        (⟨c2room.players, 0, none, []⟩ : TickCtx ℚ)
        ⟨(100, 999), 100, 400, 300, 0, 0, 999⟩ =
      { (⟨c2room.players, 0, none, []⟩ : TickCtx ℚ) with
        kept := [] ++ [integrate ⟨(100, 999), 100, 400, 300, 0, 0, 999⟩] } ∧
    tickRoom 1000 c2room = some { c2room with
      players := (c2room.projectiles.foldl (processProj 1000)
        ⟨rebuildPlayers 1000 0 (sweepPlayers 1000 c2room.players), c2room.lastHitAt,
          c2room.winner, []⟩).players
      projectiles := (c2room.projectiles.foldl (processProj 1000)
        ⟨rebuildPlayers 1000 0 (sweepPlayers 1000 c2room.players), c2room.lastHitAt,
          c2room.winner, []⟩).kept
      lastHitAt := (c2room.projectiles.foldl (processProj 1000)
        ⟨rebuildPlayers 1000 0 (sweepPlayers 1000 c2room.players), c2room.lastHitAt,
          c2room.winner, []⟩).lastHitAt
      started := true
      winner := (c2room.projectiles.foldl (processProj 1000)
        ⟨rebuildPlayers 1000 0 (sweepPlayers 1000 c2room.players), c2room.lastHitAt,
          c2room.winner, []⟩).winner } :=
  ⟨c5_physics_tick.2.2.1 1000 ⟨c2room.players, 0, none, []⟩
      ⟨(100, -6000), 100, 880, 466, 0, -15, -6000⟩ (by decide),
   c5_physics_tick.2.2.2.1 1000 ⟨c2room.players, 0, none, []⟩
      ⟨(100, 999), 100, 400, 300, 0, 0, 999⟩ (by decide) (by decide) (by decide),
   c5_physics_tick.2.2.2.2 1000 c2room (by decide) (by decide)⟩

theorem tickRoom_drop_gate {now : Int} {r r' : Room K}
    (hnd : (r.players.map Player.id).Nodup) (h : tickRoom now r = some r')
    (hd : hpDrop r r') :
    now - r.lastHitAt > HIT_COOLDOWN_MS ∧ r'.lastHitAt = now := by
  rcases tickRoom_hp hnd h with ⟨_, hmatch⟩ | ⟨hgate, hl, _⟩
  · obtain ⟨p, hp, p', hp', hid, hlt⟩ := hd
    rw [hmatch p hp p' hp' hid] at hlt
    exact absurd hlt (lt_irrefl _)
  · exact ⟨hgate, hl⟩

theorem tickRoom_no_drop {now : Int} {r r' : Room K}
    (hnd : (r.players.map Player.id).Nodup) (h : tickRoom now r = some r')
    (hd : ¬ hpDrop r r') : r'.lastHitAt = r.lastHitAt := by
  rcases tickRoom_hp hnd h with ⟨hl, _⟩ |
    ⟨_, _, tid, ⟨p0, hp0, hpid, hp0pos⟩, ⟨p1, hp1, hpid1⟩, hmap⟩
  · exact hl
  · exfalso
    apply hd
    refine ⟨p0, hp0, p1, hp1, by rw [hpid1, hpid], ?_⟩
    have := hmap p0 hp0 p1 hp1 (by rw [hpid1, hpid])
    rw [if_pos hpid] at this
    omega

theorem tickStates_nodup {t : Nat → Int} {r : Room K}
    (hnd : (r.players.map Player.id).Nodup) :
    ∀ (k : Nat) (rk : Room K), tickStates t r k = some rk →
      (rk.players.map Player.id).Nodup := by
  intro k
  induction k with
  | zero =>
    intro rk h
    cases h
    exact hnd
  | succ k ih =>
    intro rk1 h
    rw [tickStates] at h
    rcases hk : tickStates t r k with _ | rk
    · rw [hk] at h
      exact absurd h (by simp)
    · rw [hk] at h
      exact tickRoom_nodup (ih rk hk) h

theorem tickStates_lastHitAt_ge {t : Nat → Int}
    (hmono : ∀ i j : Nat, i ≤ j → t i ≤ t j) {r : Room K} {i : Nat}
    {ri' : Room K} (hi : tickStates t r (i + 1) = some ri')
    (hset : ri'.lastHitAt = t i) :
    ∀ (k : Nat), i + 1 ≤ k → ∀ rk : Room K, tickStates t r k = some rk →
      t i ≤ rk.lastHitAt := by
  intro k
  induction k with
  | zero => omega
  | succ k ih =>
    intro hk rk1 h
    by_cases hik : i + 1 = k + 1
    · have hik0 : i = k := by omega
      subst hik0
      rw [hi] at h
      cases h
      rw [hset]
    · have hik2 : i + 1 ≤ k := by omega
      rw [tickStates] at h
      rcases hkk : tickStates t r k with _ | rk
      · rw [hkk] at h
        exact absurd h (by simp)
      · rw [hkk] at h
        have hge := ih hik2 rk hkk
        rcases tickRoom_lastHitAt h with heq | heq
        · rw [heq]
          exact hge
        · rw [heq]
          exact hmono i k (by omega)

/-- **C2**: room-wide hit cooldown.  (i) In a single tick of a room with
distinct session ids, a hit is applied only when `now - lastHitAt > 900` and
sets `lastHitAt := now`; at most one session's hp decreases, and exactly by
one (if no hp drops, `lastHitAt` is untouched).  (ii) Over any monotone
sequence of tick times, any two ticks that each decrement hp lie more than
900 ms apart — so in any 900 ms window at most one hp decrement occurs
across all sessions of the room, regardless of how many live projectiles
overlap targets. -/
theorem c2_hit_cooldown :
    (∀ (now : Int) (r r' : Room K), (r.players.map Player.id).Nodup →
      tickRoom now r = some r' →
      (hpDrop r r' → now - r.lastHitAt > 900 ∧ r'.lastHitAt = now) ∧
      (¬ hpDrop r r' → r'.lastHitAt = r.lastHitAt) ∧
      ∃ o : Option Nat, ∀ p ∈ r.players, ∀ p' ∈ r'.players, p'.id = p.id →
        p'.hp = (if o = some p.id then p.hp - 1 else p.hp)) ∧
    (∀ (t : Nat → Int), (∀ i j : Nat, i ≤ j → t i ≤ t j) →
      ∀ (r : Room K), (r.players.map Player.id).Nodup →
      ∀ i j : Nat, i < j → dropsAt t r i → dropsAt t r j →
      t j - t i > 900) := by
  constructor
  · intro now r r' hnd h
    refine ⟨tickRoom_drop_gate hnd h, tickRoom_no_drop hnd h, ?_⟩
    rcases tickRoom_hp hnd h with ⟨_, hmatch⟩ |
      ⟨_, _, tid, _, _, hmap⟩
    · refine ⟨none, ?_⟩
      intro p hp p' hp' hid
      simpa using hmatch p hp p' hp' hid
    · refine ⟨some tid, ?_⟩
      intro p hp p' hp' hid
      rw [hmap p hp p' hp' hid]
      by_cases hc : p.id = tid
      · simp [hc]
      · simp [hc, Ne.symm hc]
  · intro t hmono r hnd i j hij hdi hdj
    obtain ⟨ri, ri', hsi, hsi', hdropi⟩ := hdi
    obtain ⟨rj, rj', hsj, hsj', hdropj⟩ := hdj
    have hticki : tickRoom (t i) ri = some ri' := by
      rw [tickStates, hsi] at hsi'
      exact hsi'
    have htickj : tickRoom (t j) rj = some rj' := by
      rw [tickStates, hsj] at hsj'
      exact hsj'
    have hndi := tickStates_nodup hnd i ri hsi
    have hndj := tickStates_nodup hnd j rj hsj
    have hseti : ri'.lastHitAt = t i := (tickRoom_drop_gate hndi hticki hdropi).2
    have hgatej : t j - rj.lastHitAt > HIT_COOLDOWN_MS :=
      (tickRoom_drop_gate hndj htickj hdropj).1
    have hge : t i ≤ rj.lastHitAt :=
      tickStates_lastHitAt_ge hmono hsi' hseti j (by omega) rj hsj
    have : HIT_COOLDOWN_MS = 900 := rfl
    omega

/-- Witness for C2 on `c2room` with tick times `1000, 1901, …`: the first
tick scores a hit (gate `1000 - 0 > 900` open, `lastHitAt := 1000`), and the
two decrementing ticks at indices 0 and 1 are 901 > 900 ms apart. -/
theorem c2_hit_cooldown_witness :
    ((1000 : Int) - c2room.lastHitAt > 900 ∧ c2tick1.lastHitAt = 1000) ∧
    c2times 1 - c2times 0 > 900 :=
  ⟨(c2_hit_cooldown.1 1000 c2room c2tick1 (by decide) (by decide)).1 (by decide),
   c2_hit_cooldown.2 c2times
     (fun i j hij => by simp only [c2times]; omega)
     c2room (by decide) 0 1 (by omega)
     ⟨c2room, c2tick1, rfl, by decide, by decide⟩
     ⟨c2tick1, c2tick2, by decide, by decide, by decide⟩⟩

theorem map_id_of_pointwise {f : Player K → Player K}
    (hid : ∀ q, (f q).id = q.id) (ps : List (Player K)) :
    (ps.map f).map Player.id = ps.map Player.id := by
  rw [List.map_map]
  exact List.map_congr_left (fun q _ => hid q)

theorem mem_roomsSet {rs : List (Room K)} {r x : Room K}
    (h : x ∈ roomsSet rs r) : x ∈ rs ∨ x = r := by
  rw [roomsSet] at h
  split at h
  · obtain ⟨q, hq, hx⟩ := List.mem_map.mp h
    split at hx
    · exact Or.inr hx.symm
    · exact Or.inl (hx ▸ hq)
  · rcases List.mem_append.mp h with h1 | h1
    · exact Or.inl h1
    · simp at h1
      exact Or.inr h1

theorem findOrCreateRoom_cases (rs : List (Room K)) (freshId : Int × Nat) :
    ((findOrCreateRoom rs freshId).1 ∈ rs ∨
      (findOrCreateRoom rs freshId).1 = makeRoom freshId) ∧
    ((findOrCreateRoom rs freshId).2 = rs ∨
      (findOrCreateRoom rs freshId).2 = roomsSet rs (makeRoom freshId)) := by
  rcases hfind : rs.find? (fun r => r.players.length < 2 ∧ r.winner = none)
      with _ | r
  · rw [findOrCreateRoom, hfind]
    exact ⟨Or.inr rfl, Or.inr rfl⟩
  · rw [findOrCreateRoom, hfind]
    exact ⟨Or.inl (List.mem_of_find?_eq_some hfind), Or.inl rfl⟩

theorem tickRoom_started {now : Int} {r r' : Room K}
    (h : tickRoom now r = some r') :
    r'.started =
      decide ((rebuildPlayers now 0 (sweepPlayers now r.players)).length = 2) := by
  simp only [tickRoom] at h
  split at h
  · exact absurd h (by simp)
  · split at h <;> (cases h; rfl)

theorem rebuild_sweep_nodup {now : Int} {r : Room K}
    (hnd : (r.players.map Player.id).Nodup) :
    ((rebuildPlayers now 0 (sweepPlayers now r.players)).map Player.id).Nodup := by
  rw [rebuildPlayers_ids]
  exact hnd.sublist ((sweepPlayers_sublist now r.players).map Player.id)

theorem roomWf_makeRoom (id : Int × Nat) : RoomWf (makeRoom id : Room K) :=
  ⟨by simp [makeRoom], by simp [makeRoom], by simp [makeRoom]⟩

theorem roomWf_update_players_map {r : Room K} (h : RoomWf r)
    {f : Player K → Player K} (hid : ∀ q, (f q).id = q.id)
    (hhp : ∀ q, (f q).hp = q.hp) :
    RoomWf { r with players := r.players.map f } := by
  obtain ⟨hnd, hst, hhpw⟩ := h
  refine ⟨?_, ?_, ?_⟩
  · show ((r.players.map f).map Player.id).Nodup
    rw [map_id_of_pointwise hid]
    exact hnd
  · show r.started = true ↔ (r.players.map f).length = 2
    rw [List.length_map]
    exact hst
  · intro p' hp' hle
    obtain ⟨q, hq, hfq⟩ := List.mem_map.mp hp'
    refine hhpw q hq ?_
    rw [← hfq, hhp q] at hle
    exact hle

theorem roomWf_roomJoin {now : Int} {playerId : Nat} {r : Room K}
    (h : RoomWf r) : RoomWf (roomJoin now playerId r).1 := by
  obtain ⟨hnd, _, hhpw⟩ := h
  refine ⟨?_, ?_, ?_⟩
  · show ((playersSet r.players
      (playerStartState r.players.length now playerId)).map Player.id).Nodup
    rw [playersSet]
    split
    · rw [map_id_of_pointwise]
      · exact hnd
      · intro q
        by_cases hc : q.id =
            (playerStartState r.players.length now playerId : Player K).id
        · rw [if_pos hc, hc]
        · rw [if_neg hc]
    · rename_i hany
      rw [List.map_append]
      simp only [List.map_cons, List.map_nil]
      rw [List.nodup_append]
      refine ⟨hnd, List.nodup_singleton _, ?_⟩
      intro a ha hb
      simp only [List.mem_singleton] at hb
      obtain ⟨q, hq, hqid⟩ := List.mem_map.mp ha
      rw [List.any_eq_true] at hany
      exact hany ⟨q, hq, by simp [playerStartState, hqid, hb]⟩
  · show decide ((playersSet r.players
        (playerStartState r.players.length now playerId)).length = 2) = true ↔
      (playersSet r.players
        (playerStartState r.players.length now playerId)).length = 2
    simp
  · intro p' hp' hle
    show r.winner ≠ none
    have hp'2 : p' ∈ playersSet r.players
        (playerStartState r.players.length now playerId) := hp'
    rw [playersSet] at hp'2
    split at hp'2
    · obtain ⟨q, hq, hfq⟩ := List.mem_map.mp hp'2
      by_cases hc : q.id =
          (playerStartState r.players.length now playerId : Player K).id
      · rw [if_pos hc] at hfq
        exfalso
        rw [← hfq] at hle
        simp [playerStartState, START_HP] at hle
      · rw [if_neg hc] at hfq
        exact hhpw q hq (hfq ▸ hle)
    · rcases List.mem_append.mp hp'2 with h1 | h1
      · exact hhpw p' h1 hle
      · simp only [List.mem_singleton] at h1
        subst h1
        exfalso
        simp [playerStartState, START_HP] at hle

theorem roomWf_roomFire {cosF sinF : K → K} {piK : K} {now : Int}
    {playerId : Nat} {power angle : Option K} {r : Room K} (h : RoomWf r) :
    RoomWf (roomFire cosF sinF piK now playerId power angle r).1 := by
  rcases hfind : r.players.find? (fun p => p.id = playerId) with _ | player
  · rw [roomFire, hfind]
    exact h
  · simp only [roomFire, hfind]
    by_cases hw : r.winner.isSome = true
    · rw [if_pos hw]
      exact h
    · rw [if_neg hw]
      by_cases hc : player.cooldownUntil > now
      · rw [if_pos hc]
        exact h
      · rw [if_neg hc]
        exact @roomWf_update_players_map K _ r h
          (fun p => if p.id = playerId then
            { p with cooldownUntil := now + FIRE_COOLDOWN_MS } else p)
          (fun q => by by_cases hcq : q.id = playerId <;> simp [hcq])
          (fun q => by by_cases hcq : q.id = playerId <;> simp [hcq])

theorem roomWf_roomRestart {now : Int} {r : Room K} (h : RoomWf r) :
    RoomWf (roomRestart now r) := by
  refine ⟨?_, ?_, ?_⟩
  · show ((r.players.map fun p => playerStartState p.slot now p.id).map
      Player.id).Nodup
    rw [@map_id_of_pointwise K _ (fun p => playerStartState p.slot now p.id)
      (fun q => rfl) r.players]
    exact h.1
  · show decide ((r.players.map fun p => playerStartState p.slot now p.id).length
        = 2) = true ↔
      (r.players.map fun p => playerStartState p.slot now p.id).length = 2
    simp
  · intro p' hp' hle
    obtain ⟨q, hq, hfq⟩ := List.mem_map.mp hp'
    exfalso
    rw [← hfq] at hle
    simp [playerStartState, START_HP] at hle

theorem roomWf_tickRoom {now : Int} {r r' : Room K} (h : RoomWf r)
    (ht : tickRoom now r = some r') : RoomWf r' := by
  refine ⟨tickRoom_nodup h.1 ht, ?_, ?_⟩
  · have hst := tickRoom_started ht
    have hlen : r'.players.length =
        (rebuildPlayers now 0 (sweepPlayers now r.players)).length := by
      have := congrArg List.length (tickRoom_ids ht)
      simpa [rebuildPlayers_length] using this
    rw [hst, hlen]
    simp
  · intro p' hp' hle
    simp only [tickRoom] at ht
    split at ht
    · exact absurd ht (by simp)
    · split at ht
      · cases ht
        obtain ⟨q, hq, hqid, hqhp, _, _⟩ := mem_rebuildPlayers hp'
        exact h.2.2 q (mem_sweepPlayers.mp hq).1 (by rw [← hqhp]; exact hle)
      · rename_i hcond
        push_neg at hcond
        have hwnone : r.winner = none := by
          have h2 := hcond.2
          simpa [Option.isSome_iff_ne_none] using h2
        cases ht
        rcases foldl_processProj_cases now r.projectiles
            ⟨rebuildPlayers now 0 (sweepPlayers now r.players), r.lastHitAt,
              r.winner, []⟩ with h1 | h1
        · exfalso
          dsimp only at hp'
          rw [h1.1] at hp'
          obtain ⟨q, hq, hqid, hqhp, _, _⟩ := mem_rebuildPlayers hp'
          exact h.2.2 q (mem_sweepPlayers.mp hq).1
            (by rw [← hqhp]; exact hle) hwnone
        · obtain ⟨hgate, hl, t, htmem, hthp, hpl, o, hw⟩ := h1
          dsimp only at hp' ⊢
          rw [hpl] at hp'
          obtain ⟨q, hq, rfl⟩ := List.mem_map.mp hp'
          rw [hw]
          by_cases hc : q.id = t.id
          · have hndps := @rebuild_sweep_nodup K _ now r h.1
            have hqt : q = t := eq_of_mem_of_id_eq hndps hq htmem hc
            rw [if_pos hc] at hle
            rw [if_pos (by rw [← hqt]; simpa using hle)]
            simp
          · rw [if_neg hc] at hle
            exfalso
            obtain ⟨q0, hq0, hq0id, hq0hp, _, _⟩ := mem_rebuildPlayers hq
            exact h.2.2 q0 (mem_sweepPlayers.mp hq0).1
              (by rw [← hq0hp]; exact hle) hwnone

theorem reachable_wf {cosF sinF : K → K} {piK : K} {rs : List (Room K)}
    (h : Reachable cosF sinF piK rs) : ∀ x ∈ rs, RoomWf x := by
  induction h with
  | init =>
    intro x hx
    exact absurd hx (by simp)
  | @step rs0 hprev op ih =>
    intro x hx
    cases op with
    | join now freshId playerId =>
      have hx2 : x ∈ roomsSet (findOrCreateRoom rs0 freshId).2
          (roomJoin now playerId (findOrCreateRoom rs0 freshId).1).1 := hx
      rcases mem_roomsSet hx2 with hmem | rfl
      · rcases (findOrCreateRoom_cases rs0 freshId).2 with h2 | h2
        · rw [h2] at hmem
          exact ih x hmem
        · rw [h2] at hmem
          rcases mem_roomsSet hmem with hmem2 | rfl
          · exact ih x hmem2
          · exact roomWf_makeRoom freshId
      · rcases (findOrCreateRoom_cases rs0 freshId).1 with h1 | h1
        · exact roomWf_roomJoin (ih _ h1)
        · rw [h1]
          exact roomWf_roomJoin (roomWf_makeRoom freshId)
    | poll now roomId playerId =>
      rcases hfind : rs0.find? (fun q => q.id = roomId) with _ | r
      · have heq : (stepOp cosF sinF piK rs0 (Op.poll now roomId playerId)).1
            = rs0 := by
          simp only [stepOp, apiPoll, hfind]
        rw [heq] at hx
        exact ih x hx
      · by_cases hany : r.players.any (fun p => p.id = playerId) = true
        · have heq : (stepOp cosF sinF piK rs0 (Op.poll now roomId playerId)).1
              = roomsSet rs0 { r with players := r.players.map (fun p =>
                  if p.id = playerId then { p with lastSeenAt := now } else p) } := by
            simp only [stepOp, apiPoll, hfind, if_pos hany]
          rw [heq] at hx
          rcases mem_roomsSet hx with hmem | rfl
          · exact ih x hmem
          · exact roomWf_update_players_map
              (ih r (List.mem_of_find?_eq_some hfind))
              (fun q => by by_cases hc : q.id = playerId <;> simp [hc])
              (fun q => by by_cases hc : q.id = playerId <;> simp [hc])
        · have heq : (stepOp cosF sinF piK rs0 (Op.poll now roomId playerId)).1
              = rs0 := by
            simp only [stepOp, apiPoll, hfind, if_neg hany]
          rw [heq] at hx
          exact ih x hx
    | fire now roomId playerId power angle =>
      rcases hfind : rs0.find? (fun q => q.id = roomId) with _ | r
      · have heq : (stepOp cosF sinF piK rs0
            (Op.fire now roomId playerId power angle)).1 = rs0 := by
          simp only [stepOp, apiFire, hfind]
        rw [heq] at hx
        exact ih x hx
      · have heq : (stepOp cosF sinF piK rs0
            (Op.fire now roomId playerId power angle)).1 =
            roomsSet rs0 (roomFire cosF sinF piK now playerId power angle r).1 := by
          simp only [stepOp, apiFire, hfind]
        rw [heq] at hx
        rcases mem_roomsSet hx with hmem | rfl
        · exact ih x hmem
        · exact roomWf_roomFire (ih r (List.mem_of_find?_eq_some hfind))
    | restart now roomId =>
      rcases hfind : rs0.find? (fun q => q.id = roomId) with _ | r
      · have heq : (stepOp cosF sinF piK rs0 (Op.restart now roomId)).1 = rs0 := by
          simp only [stepOp, apiRestart, hfind]
        rw [heq] at hx
        exact ih x hx
      · have heq : (stepOp cosF sinF piK rs0 (Op.restart now roomId)).1 =
            roomsSet rs0 (roomRestart now r) := by
          simp only [stepOp, apiRestart, hfind]
        rw [heq] at hx
        rcases mem_roomsSet hx with hmem | rfl
        · exact ih x hmem
        · exact roomWf_roomRestart (ih r (List.mem_of_find?_eq_some hfind))
    | tick now =>
      have hx2 : x ∈ rs0.filterMap (tickRoom now) := hx
      obtain ⟨r, hr, htr⟩ := List.mem_filterMap.mp hx2
      exact roomWf_tickRoom (ih r hr) htr

theorem reachable_runOps {cosF sinF : K → K} {piK : K} {rs : List (Room K)}
    (h : Reachable cosF sinF piK rs) (ops : List (Op K)) :
    Reachable cosF sinF piK (runOps cosF sinF piK rs ops).1 := by
  induction ops generalizing rs with
  | nil => exact h
  | cons op ops ih => exact ih (Reachable.step h op)

set_option maxRecDepth 100000 in
/-- **C3** counterexample: the claim's "winner is non-null iff some
session's hp reached 0" fails on a reachable state.  Running `c3ops` from
process start (two joins, five scoring hits by player 100, then player 101
times out and is swept) reaches a registry whose single room has
`winner = some 100` while its only remaining session (player 100) has
hp 5 > 0 — `winner` is non-null but no session with hp 0 is present. -/
theorem c3_winner_without_dead_session :
    Reachable cosQ sinQ piQ c3final ∧
    c3final.map (fun r => (r.winner, r.players.map (fun p => decide (p.hp ≤ 0)))) =
      [(some 100, [false])] :=
  ⟨reachable_runOps Reachable.init c3ops, by decide⟩

/-- **C3** (amended): for every reachable room state, `started` is true iff
the room holds exactly two sessions, and any session whose hp reached 0
implies `winner` is non-null (the converse fails: the sweep can remove the
dead session while `winner` stays set); once `winner` is set, every fire
request against the room is rejected leaving it unchanged, and every tick
leaves its projectile list, `winner` and `lastHitAt` unchanged, until an
explicit restart. -/
theorem c3_room_state_invariants :
    (∀ (cosF sinF : K → K) (piK : K) (rs : List (Room K)),
      Reachable cosF sinF piK rs → ∀ r ∈ rs,
        (r.started = true ↔ r.players.length = 2) ∧
        (∀ p ∈ r.players, p.hp ≤ 0 → r.winner ≠ none)) ∧
    (∀ (cosF sinF : K → K) (piK : K) (now : Int) (playerId : Nat)
        (power angle : Option K) (r : Room K), r.winner ≠ none →
      roomFire cosF sinF piK now playerId power angle r = (r, FireResp.badRequest)) ∧
    (∀ (now : Int) (r r' : Room K), r.winner ≠ none → tickRoom now r = some r' →
      r'.projectiles = r.projectiles ∧ r'.winner = r.winner ∧
      r'.lastHitAt = r.lastHitAt) := by
  refine ⟨?_, ?_, ?_⟩
  · intro cosF sinF piK rs hreach r hr
    have hwf := reachable_wf hreach r hr
    exact ⟨hwf.2.1, hwf.2.2⟩
  · intro cosF sinF piK now playerId power angle r hw
    have hws : r.winner.isSome = true := Option.isSome_iff_ne_none.mpr hw
    rcases hfind : r.players.find? (fun p => p.id = playerId) with _ | player
    · rw [roomFire, hfind]
    · simp only [roomFire, hfind]
      rw [if_pos hws]
  · intro now r r' hw ht
    have hws : r.winner.isSome = true := Option.isSome_iff_ne_none.mpr hw
    have hne : ¬ (sweepPlayers now r.players).length = 0 := by
      intro h0
      rw [(tickRoom_none_iff now r).mpr (List.length_eq_zero.mp h0)] at ht
      exact absurd ht (by simp)
    rw [tickRoom_skip hne (Or.inr hws)] at ht
    cases ht
    exact ⟨rfl, rfl, rfl⟩

/-- Witness for C3 (amended): the single-join registry `c3joinreg` is
reachable and its room satisfies the invariants (one session, not started,
no winner); a fire against a finished copy of that room is rejected
unchanged, and a tick of the finished two-player room `c10room` preserves
its projectiles, winner and `lastHitAt`. -/
theorem c3_room_state_witness :
    ((c3joinroom.started = true ↔ c3joinroom.players.length = 2) ∧
      (∀ p ∈ c3joinroom.players, p.hp ≤ 0 → c3joinroom.winner ≠ none)) ∧
    roomFire cosQ sinQ piQ 60 100 none none { c3joinroom with winner := some 100 } =
      ({ c3joinroom with winner := some 100 }, FireResp.badRequest) ∧
    ({ c10room with
        players := rebuildPlayers 1000 0 (sweepPlayers 1000 c10room.players) } : Room ℚ).projectiles
        = c10room.projectiles ∧
      ({ c10room with
        players := rebuildPlayers 1000 0 (sweepPlayers 1000 c10room.players) } : Room ℚ).winner
        = c10room.winner ∧
      ({ c10room with
        players := rebuildPlayers 1000 0 (sweepPlayers 1000 c10room.players) } : Room ℚ).lastHitAt
        = c10room.lastHitAt :=
  ⟨c3_room_state_invariants.1 cosQ sinQ piQ c3joinreg
      (reachable_runOps Reachable.init [Op.join 0 (0, 0) 100]) c3joinroom (by decide),
   c3_room_state_invariants.2.1 cosQ sinQ piQ 60 100 none none
      { c3joinroom with winner := some 100 } (by decide),
   c3_room_state_invariants.2.2 1000 c10room
      { c10room with
        players := rebuildPlayers 1000 0 (sweepPlayers 1000 c10room.players) }
      (by decide) (by decide)⟩

end BQGame
